import Mathlib

/-!
Verification of the TailwindSQL core compiler: the class-name parser
(`parseClassName`) and the query builder (`buildQuery`), shallowly embedded
from the TypeScript source.  JavaScript strings are modelled as `List Char`,
the `Record<string, string>` WHERE object as an insertion-ordered association
list (`setWhere` reproduces `obj[k] = v`: an existing key keeps its position,
a new key is appended, and the key `__proto__` is a silent no-op, because the
assignment finds the inherited `Object.prototype.__proto__` setter, which
ignores string values), thrown exceptions as `Except`, and `parseInt(s, 10)`
as `jsParseInt`.
-/

/-- JavaScript strings are modelled as lists of characters. -/
abbrev Str := List Char

/-- ASCII letter, the `[A-Za-z]` ranges of the safe-identifier regex. -/
def isLetterChar (c : Char) : Bool :=
  ('a' ≤ c && c ≤ 'z') || ('A' ≤ c && c ≤ 'Z')

/-- ASCII digit, the `[0-9]` range of the safe-identifier regex. -/
def isDigitChar (c : Char) : Bool :=
  '0' ≤ c && c ≤ '9'

/-- A character allowed anywhere in a safe identifier: `[A-Za-z0-9_]`. -/
def identChar (c : Char) : Bool :=
  isLetterChar c || isDigitChar c || c = '_'

/-- The test of `SAFE_IDENTIFIER_REGEX = /^[a-zA-Z_][a-zA-Z0-9_]*$/`. -/
def isSafeIdentifier : Str → Bool
  | [] => false
  | c :: cs => (isLetterChar c || c = '_') && cs.all identChar

/-- JavaScript `String.prototype.split` with a single-character separator:
`"a--b".split('-') = ["a","","b"]`, `"".split('-') = [""]`. -/
def splitOnChar (sep : Char) : Str → List Str
  | [] => [[]]
  | c :: cs =>
    match splitOnChar sep cs with
    | [] => [[]]
    | h :: t => if c = sep then [] :: h :: t else (c :: h) :: t

/-- `Array.prototype.join(sep)`. -/
def joinSep (sep : Str) : List Str → Str
  | [] => []
  | [x] => x
  | x :: y :: rest => x ++ sep ++ joinSep sep (y :: rest)

/-- Whitespace skipped by JavaScript `parseInt` (the common ASCII cases). -/
def isJsSpace (c : Char) : Bool :=
  c = ' ' || c.toNat = 9 || c.toNat = 10 || c.toNat = 11 || c.toNat = 12 || c.toNat = 13

/-- Numeric value of a decimal digit character. -/
def digitVal (c : Char) : Nat := c.toNat - 48

/-- The maximal leading run of decimal digits, `none` when there is none
(`parseInt` ignores trailing garbage: `parseInt("10abc", 10) = 10`). -/
def parseDigitRun (s : Str) : Option Nat :=
  let run := s.takeWhile isDigitChar
  if run.isEmpty then none
  else some (run.foldl (fun a c => 10 * a + digitVal c) 0)

/-- JavaScript `parseInt(s, 10)`: skip leading whitespace, optional sign,
then the maximal decimal-digit prefix; `NaN` (here `none`) without digits. -/
def jsParseInt (s : Str) : Option Int :=
  match s.dropWhile isJsSpace with
  | '-' :: rest => (parseDigitRun rest).map (fun n => -(n : Int))
  | '+' :: rest => (parseDigitRun rest).map (fun n => (n : Int))
  | s1 => (parseDigitRun s1).map (fun n => (n : Int))

/-- Decimal digit character. -/
def digitCharOf : Nat → Char
  | 0 => '0' | 1 => '1' | 2 => '2' | 3 => '3' | 4 => '4'
  | 5 => '5' | 6 => '6' | 7 => '7' | 8 => '8' | _ => '9'

/-- Decimal representation, fuel-driven so that it reduces in the kernel;
`natDigits` below always supplies enough fuel. -/
def natDigitsGo : Nat → Nat → Str
  | _, 0 => []
  | n, fuel + 1 =>
    if n < 10 then [digitCharOf n]
    else natDigitsGo (n / 10) fuel ++ [digitCharOf (n % 10)]

/-- Decimal representation of a natural number, as in a JS template string. -/
def natDigits (n : Nat) : Str := natDigitsGo n (n + 1)

/-- The `type` field of `JoinConfig`: `'INNER' | 'LEFT' | 'RIGHT'`. -/
inductive JoinType where
  | INNER | LEFT | RIGHT
deriving DecidableEq, Repr

/-- The string a join type interpolates to (the TS union values are already
their own uppercase spellings). -/
def joinTypeStr : JoinType → Str
  | .INNER => "INNER".toList
  | .LEFT => "LEFT".toList
  | .RIGHT => "RIGHT".toList

/-- `interface JoinConfig` from the parser module. -/
structure JoinConfig where
  table : Str
  parentColumn : Str
  childColumn : Str
  columns : List Str
  type : JoinType
deriving DecidableEq, Repr

/-- The `direction` union `'asc' | 'desc'`. -/
inductive Dir where
  | asc | desc
deriving DecidableEq, Repr

/-- `direction.toUpperCase()` as applied in the builder. -/
def dirUpper : Dir → Str
  | .asc => "ASC".toList
  | .desc => "DESC".toList

/-- The `orderBy` record of `QueryConfig`. -/
structure OrderBy where
  field : Str
  direction : Dir
deriving DecidableEq, Repr

/-- `interface QueryConfig`.  The `where` object (`Record<string, string>`)
is modelled as an insertion-ordered association list; `setWhere` below
reproduces the JS assignment semantics on it. -/
structure QueryConfig where
  table : Str
  columns : List Str
  «where» : List (Str × Str)
  limit : Option Int := none
  orderBy : Option OrderBy := none
  joins : Option (List JoinConfig) := none
deriving DecidableEq, Repr

/-- One element of the builder's `params` array (`(string | number)[]`). -/
inductive Param where
  | str (s : Str)
  | num (n : Int)
deriving DecidableEq, Repr

/-- `interface BuiltQuery`. -/
structure BuiltQuery where
  sql : Str
  params : List Param
deriving DecidableEq, Repr

/-- Insertion-ordered own-property write, the ordinary case of
`obj[k] = v`: an existing key keeps its position and gets the new value, a
new key is appended at the end. -/
def setWhereAux : List (Str × Str) → Str → Str → List (Str × Str)
  | [], k, v => [(k, v)]
  | (k', v') :: rest, k, v =>
    if k' = k then (k, v) :: rest else (k', v') :: setWhereAux rest k v

/-- JS object assignment `obj[k] = v` on a plain object literal: for the
key `__proto__` the assignment finds the inherited accessor property on
`Object.prototype`, whose setter ignores a string value, so no own
property is created or changed — a silent no-op (`__proto__` is also never
an own key here, since the map starts empty and only grows by such
assignments); every other key is an ordinary insertion-ordered
own-property write. -/
def setWhere (w : List (Str × Str)) (k v : Str) : List (Str × Str) :=
  if k = "__proto__".toList then w else setWhereAux w k v

/-- `type ParserState` (the `table` variant exists in the source but is
never assigned; the loop starts in `column`). -/
inductive ParserState where
  | table | column | where_field | where_value | limit | orderby_field | orderby_dir
deriving DecidableEq, Repr

/-- The mutable locals of `parseClassName`'s token loop: `state`,
`currentWhereField` and the `config` under construction. -/
structure LoopState where
  state : ParserState
  currentWhereField : Str
  config : QueryConfig
deriving DecidableEq, Repr

/-- One iteration of `parseClassName`'s `while` loop on token `part`:
the three reserved keywords are intercepted first and force a state
transition; otherwise the token is interpreted according to the state. -/
def parseStep (st : LoopState) (part : Str) : LoopState :=
  if part = "where".toList then { st with state := .where_field }
  else if part = "limit".toList then { st with state := .limit }
  else if part = "orderby".toList then { st with state := .orderby_field }
  else
    match st.state with
    | .table => st
    | .column =>
      -- the source re-checks `part` against the keyword list here; the
      -- check is always true at this point since keywords were intercepted
      if ¬ (part = "where".toList ∨ part = "limit".toList ∨ part = "orderby".toList) then
        { st with config := { st.config with columns := st.config.columns ++ [part] } }
      else st
    | .where_field => { st with state := .where_value, currentWhereField := part }
    | .where_value =>
      { st with
          state := .where_field
          config := { st.config with
            «where» := setWhere st.config.«where» st.currentWhereField part } }
    | .limit =>
      match jsParseInt part with
      | some n => { st with state := .column, config := { st.config with limit := some n } }
      | none => { st with state := .column }
    | .orderby_field =>
      { st with
          state := .orderby_dir
          config := { st.config with orderBy := some ⟨part, .asc⟩ } }
    | .orderby_dir =>
      -- the source writes one guard, `if (part === 'asc' || part === 'desc')
      -- config.orderBy!.direction = part`; the two branches below are that
      -- assignment case by case, with the non-null assertion rendered as the
      -- (always-populated here) Option.map
      if part = "asc".toList then
        { st with state := .column
                  config := { st.config with
                    orderBy := st.config.orderBy.map (fun ob => { ob with direction := .asc }) } }
      else if part = "desc".toList then
        { st with state := .column
                  config := { st.config with
                    orderBy := st.config.orderBy.map (fun ob => { ob with direction := .desc }) } }
      else { st with state := .column }

/-- The token loop itself. -/
def parseLoop (st : LoopState) : List Str → QueryConfig
  | [] => st.config
  | part :: rest => parseLoop (parseStep st part) rest

/-- `parseClassName`: reject unless the input starts with `db-`; split the
rest on `-`; the first token is the table (reject when empty); feed the
remaining tokens to the state machine starting in `column`. -/
def parseClassName (className : Str) : Option QueryConfig :=
  if ("db-".toList).isPrefixOf className then
    match splitOnChar '-' (className.drop 3) with
    | [] => none
    | t :: rest =>
      if t.isEmpty then none
      else
        some (parseLoop
          ⟨.column, [], { table := t, columns := [], «where» := [] }⟩ rest)
  else none

deriving instance DecidableEq for Except

/-- The message of the error thrown by `sanitizeIdentifier`. -/
def invalidIdentifierMsg (name : Str) : Str := "Invalid identifier: ".toList ++ name

/-- `sanitizeIdentifier`: return the name unchanged when it matches
`SAFE_IDENTIFIER_REGEX`, otherwise throw `Invalid identifier: {name}`. -/
def sanitizeIdentifier (name : Str) : Except Str Str :=
  if isSafeIdentifier name then .ok name else .error (invalidIdentifierMsg name)

/-- `config.joins && config.joins.length > 0` (an empty array is truthy in
JS, so this is false for both a missing and an empty join list). -/
def hasJoins (config : QueryConfig) : Bool :=
  match config.joins with
  | some js => ¬ js.isEmpty
  | none => false

/-- The positional join alias `` `j${i}` ``. -/
def aliasName (i : Nat) : Str := 'j' :: natDigits i

/-- The aliased query builder (`query-builder.ts` of the package exporting
the parser): sanitizes every identifier, assigns positional aliases
`j0, j1, …` to joins, and assembles SELECT/FROM/JOIN/WHERE/ORDER BY/LIMIT
in order, pushing each WHERE value and the limit as bound parameters. -/
def buildQuery (config : QueryConfig) : Except Str BuiltQuery := do
  let table ← sanitizeIdentifier config.table
  let hj := hasJoins config
  let joinsList := config.joins.getD []
  -- SELECT clause: base-table columns, prefixed with the table name when
  -- joins are present; `{table}.*` / `*` when no explicit columns
  let baseColsE : Except Str (List Str) :=
    if ¬ config.columns.isEmpty then
      if hj then
        config.columns.mapM (fun c => do
          let sc ← sanitizeIdentifier c
          pure (table ++ '.' :: sc))
      else
        config.columns.mapM (fun c => sanitizeIdentifier c)
    else
      pure (if hj then [table ++ ".*".toList] else ["*".toList])
  let baseCols ← baseColsE
  -- columns from joins, projected through the alias and renamed
  -- `{alias}.{col} AS {join.table}_{col}` (or `{alias}.*`)
  let joinColGroups ← joinsList.enum.mapM (fun p =>
    if ¬ p.2.columns.isEmpty then
      p.2.columns.mapM (fun col => do
        let sc ← sanitizeIdentifier col
        pure (aliasName p.1 ++ '.' :: sc ++ " AS ".toList ++ p.2.table ++ '_' :: sc))
    else
      pure [aliasName p.1 ++ ".*".toList])
  let selectColumns := baseCols ++ joinColGroups.flatten
  let columns := joinSep ", ".toList selectColumns
  let sql0 := "SELECT ".toList ++ columns ++ " FROM ".toList ++ table
  -- JOIN clauses with aliases
  let joinClauses ← joinsList.enum.mapM (fun p => do
    let joinTable ← sanitizeIdentifier p.2.table
    let parentCol ← sanitizeIdentifier p.2.parentColumn
    let childCol ← sanitizeIdentifier p.2.childColumn
    pure (' ' :: joinTypeStr p.2.type ++ " JOIN ".toList ++ joinTable
      ++ " AS ".toList ++ aliasName p.1 ++ " ON ".toList ++ table
      ++ '.' :: parentCol ++ " = ".toList ++ aliasName p.1 ++ '.' :: childCol))
  let sql1 := sql0 ++ joinClauses.flatten
  -- WHERE clause: one `field = ?` per entry, AND-combined; each value is a
  -- bound parameter; fields prefixed with the base table when joins exist
  let conditions ← config.«where».mapM (fun fv => do
    let sf ← sanitizeIdentifier fv.1
    pure ((if hj then table ++ '.' :: sf else sf) ++ " = ?".toList))
  let whereParams := config.«where».map (fun fv => Param.str fv.2)
  let sql2 :=
    if ¬ config.«where».isEmpty then
      sql1 ++ " WHERE ".toList ++ joinSep " AND ".toList conditions
    else sql1
  -- ORDER BY clause
  let sql3E : Except Str Str :=
    match config.orderBy with
    | some ob => do
      let f ← sanitizeIdentifier ob.field
      pure (sql2 ++ " ORDER BY ".toList ++ (if hj then table ++ '.' :: f else f)
        ++ ' ' :: dirUpper ob.direction)
    | none => pure sql2
  let sql3 ← sql3E
  -- LIMIT clause, always a bound parameter
  match config.limit with
  | some n => pure ⟨sql3 ++ " LIMIT ?".toList, whereParams ++ [Param.num n]⟩
  | none => pure ⟨sql3, whereParams⟩

/-- The alias-free duplicate of the query builder present in the source
tree: identical except that joined tables are referenced by their bare
table name in both the projection and the ON clause. -/
def buildQueryNoAlias (config : QueryConfig) : Except Str BuiltQuery := do
  let table ← sanitizeIdentifier config.table
  let hj := hasJoins config
  let joinsList := config.joins.getD []
  let baseColsE : Except Str (List Str) :=
    if ¬ config.columns.isEmpty then
      if hj then
        config.columns.mapM (fun c => do
          let sc ← sanitizeIdentifier c
          pure (table ++ '.' :: sc))
      else
        config.columns.mapM (fun c => sanitizeIdentifier c)
    else
      pure (if hj then [table ++ ".*".toList] else ["*".toList])
  let baseCols ← baseColsE
  let joinColGroups ← joinsList.mapM (fun join => do
    let joinTable ← sanitizeIdentifier join.table
    if ¬ join.columns.isEmpty then
      join.columns.mapM (fun col => do
        let sc ← sanitizeIdentifier col
        pure (joinTable ++ '.' :: sc))
    else
      pure [joinTable ++ ".*".toList])
  let selectColumns := baseCols ++ joinColGroups.flatten
  let columns := joinSep ", ".toList selectColumns
  let sql0 := "SELECT ".toList ++ columns ++ " FROM ".toList ++ table
  let joinClauses ← joinsList.mapM (fun join => do
    let joinTable ← sanitizeIdentifier join.table
    let parentCol ← sanitizeIdentifier join.parentColumn
    let childCol ← sanitizeIdentifier join.childColumn
    pure (' ' :: joinTypeStr join.type ++ " JOIN ".toList ++ joinTable
      ++ " ON ".toList ++ table ++ '.' :: parentCol ++ " = ".toList
      ++ joinTable ++ '.' :: childCol))
  let sql1 := sql0 ++ joinClauses.flatten
  let conditions ← config.«where».mapM (fun fv => do
    let sf ← sanitizeIdentifier fv.1
    pure ((if hj then table ++ '.' :: sf else sf) ++ " = ?".toList))
  let whereParams := config.«where».map (fun fv => Param.str fv.2)
  let sql2 :=
    if ¬ config.«where».isEmpty then
      sql1 ++ " WHERE ".toList ++ joinSep " AND ".toList conditions
    else sql1
  let sql3E : Except Str Str :=
    match config.orderBy with
    | some ob => do
      let f ← sanitizeIdentifier ob.field
      pure (sql2 ++ " ORDER BY ".toList ++ (if hj then table ++ '.' :: f else f)
        ++ ' ' :: dirUpper ob.direction)
    | none => pure sql2
  let sql3 ← sql3E
  match config.limit with
  | some n => pure ⟨sql3 ++ " LIMIT ?".toList, whereParams ++ [Param.num n]⟩
  | none => pure ⟨sql3, whereParams⟩

/-- Every string the builder interpolates as an identifier (base table,
base columns, join projected columns, join table / parent / child columns,
WHERE keys, ORDER BY field). -/
def configIdentifiers (config : QueryConfig) : List Str :=
  [config.table] ++ config.columns
    ++ (config.joins.getD []).flatMap (fun j => j.columns)
    ++ (config.joins.getD []).flatMap (fun j => [j.table, j.parentColumn, j.childColumn])
    ++ config.«where».map Prod.fst
    ++ (match config.orderBy with | some ob => [ob.field] | none => [])

/-- All identifier positions of the descriptor pass the safe grammar. -/
def allIdentifiersSafe (config : QueryConfig) : Bool :=
  (configIdentifiers config).all isSafeIdentifier

/-- The base-table part of the SELECT list of a successful build. -/
def baseSelectList (config : QueryConfig) : List Str :=
  if ¬ config.columns.isEmpty then
    if hasJoins config then config.columns.map (fun c => config.table ++ '.' :: c)
    else config.columns
  else if hasJoins config then [config.table ++ ".*".toList] else ["*".toList]

/-- The SELECT-list entries contributed by the `i`-th join. -/
def joinProjection (p : Nat × JoinConfig) : List Str :=
  if ¬ p.2.columns.isEmpty then
    p.2.columns.map (fun col =>
      aliasName p.1 ++ '.' :: col ++ " AS ".toList ++ p.2.table ++ '_' :: col)
  else [aliasName p.1 ++ ".*".toList]

/-- The join part of the SELECT list of a successful build. -/
def joinSelectList (config : QueryConfig) : List Str :=
  ((config.joins.getD []).enum.map joinProjection).flatten

/-- The `i`-th JOIN clause of a successful build:
`` ` {KIND} JOIN {table} AS j{i} ON {base}.{parentColumn} = j{i}.{childColumn}` ``. -/
def joinClauseOf (table : Str) (p : Nat × JoinConfig) : Str :=
  ' ' :: joinTypeStr p.2.type ++ " JOIN ".toList ++ p.2.table ++ " AS ".toList
    ++ aliasName p.1 ++ " ON ".toList ++ table ++ '.' :: p.2.parentColumn
    ++ " = ".toList ++ aliasName p.1 ++ '.' :: p.2.childColumn

/-- All JOIN clauses of a successful build, concatenated in array order. -/
def joinClausesStr (config : QueryConfig) : Str :=
  ((config.joins.getD []).enum.map (joinClauseOf config.table)).flatten

/-- The `field = ?` conditions of a successful build, in insertion order. -/
def whereCondList (config : QueryConfig) : List Str :=
  config.«where».map (fun fv =>
    (if hasJoins config then config.table ++ '.' :: fv.1 else fv.1) ++ " = ?".toList)

/-- The WHERE clause of a successful build (empty without conditions). -/
def whereStr (config : QueryConfig) : Str :=
  if ¬ config.«where».isEmpty then
    " WHERE ".toList ++ joinSep " AND ".toList (whereCondList config)
  else []

/-- The ORDER BY clause of a successful build (empty when absent). -/
def orderByStr (config : QueryConfig) : Str :=
  match config.orderBy with
  | some ob =>
    " ORDER BY ".toList
      ++ (if hasJoins config then config.table ++ '.' :: ob.field else ob.field)
      ++ ' ' :: dirUpper ob.direction
  | none => []

/-- The LIMIT clause of a successful build (empty when absent). -/
def limitStr (config : QueryConfig) : Str :=
  match config.limit with
  | some _ => " LIMIT ?".toList
  | none => []

/-- The parameter pushed for the LIMIT clause (empty when absent). -/
def limitParams (config : QueryConfig) : List Param :=
  match config.limit with
  | some n => [Param.num n]
  | none => []

/-- The query text a successful `buildQuery` produces, in closed form. -/
def expectedSql (config : QueryConfig) : Str :=
  "SELECT ".toList ++ joinSep ", ".toList (baseSelectList config ++ joinSelectList config)
    ++ " FROM ".toList ++ config.table ++ joinClausesStr config
    ++ whereStr config ++ orderByStr config ++ limitStr config

/-- The parameter list a successful `buildQuery` produces, in closed form:
WHERE values in insertion order, then the limit. -/
def expectedParams (config : QueryConfig) : List Param :=
  config.«where».map (fun fv => Param.str fv.2) ++ limitParams config

/-- Maximal runs of identifier characters in a string (the accumulator
holds the currently open run, reversed). -/
def identRunsAux : Str → Str → List Str
  | [], acc => if acc.isEmpty then [] else [acc.reverse]
  | c :: cs, acc =>
    if identChar c then identRunsAux cs (c :: acc)
    else if acc.isEmpty then identRunsAux cs []
    else acc.reverse :: identRunsAux cs []

/-- The maximal `[A-Za-z0-9_]`-runs of a string: the only substrings an
SQL consumer can read as identifiers or keywords. -/
def identRuns (s : Str) : List Str := identRunsAux s []

/-- Every maximal identifier-character run of the string is a safe
identifier. -/
def allRunsSafe (s : Str) : Bool := (identRuns s).all isSafeIdentifier

/-- The first character, if any, is not an identifier character. -/
def headOpen : Str → Bool
  | [] => true
  | c :: _ => ¬ identChar c

/-- The string is nonempty and ends in a non-identifier character. -/
def lastOpen (s : Str) : Bool :=
  match s.getLast? with
  | none => false
  | some c => ¬ identChar c

theorem natDigitsGo_fuel (n f₁ f₂ : Nat) (h₁ : n < f₁) (h₂ : n < f₂) :
    natDigitsGo n f₁ = natDigitsGo n f₂ := by
  induction n using Nat.strong_induction_on generalizing f₁ f₂ with
  | _ n ih =>
    match f₁, f₂ with
    | g₁ + 1, g₂ + 1 =>
      simp only [natDigitsGo]
      by_cases h : n < 10
      · simp [h]
      · simp only [h, if_false]
        have hd : n / 10 < n := Nat.div_lt_self (by omega) (by omega)
        rw [ih (n / 10) hd g₁ g₂ (by omega) (by omega)]

theorem natDigits_eq (n : Nat) :
    natDigits n = if n < 10 then [digitCharOf n]
      else natDigits (n / 10) ++ [digitCharOf (n % 10)] := by
  by_cases h : n < 10
  · simp [natDigits, natDigitsGo, h]
  · have h1 : natDigits n = natDigitsGo (n / 10) n ++ [digitCharOf (n % 10)] := by
      simp only [natDigits, natDigitsGo]
      simp [h]
    rw [h1, natDigitsGo_fuel (n / 10) n (n / 10 + 1) (by omega) (by omega), if_neg h]
    rfl

theorem ok_bind {α β : Type} (a : α) (f : α → Except Str β) :
    (Except.ok a >>= f) = f a := rfl

theorem error_bind {α β : Type} (e : Str) (f : α → Except Str β) :
    ((Except.error e : Except Str α) >>= f) = Except.error e := rfl

theorem except_bind_ok {α β : Type} (e : Except Str α) (f : α → Except Str β) (r : β) :
    (e >>= f) = .ok r ↔ ∃ a, e = .ok a ∧ f a = .ok r := by
  cases e <;> simp [Bind.bind, Except.bind]

theorem except_bind_error {α β : Type} (e : Except Str α) (f : α → Except Str β) (msg : Str) :
    (e >>= f) = .error msg ↔ e = .error msg ∨ ∃ a, e = .ok a ∧ f a = .error msg := by
  cases e <;> simp [Bind.bind, Except.bind]

theorem mapM_ok_of {α β : Type} (f : α → Except Str β) (g : α → β) (l : List α)
    (h : ∀ x ∈ l, f x = .ok (g x)) : l.mapM f = .ok (l.map g) := by
  induction l with
  | nil => rfl
  | cons a l ih =>
    rw [List.mapM_cons, h a (List.mem_cons_self a l), ok_bind,
      ih (fun x hx => h x (List.mem_cons_of_mem a hx)), ok_bind]
    rfl

theorem mapM_error_mem {α β : Type} (f : α → Except Str β) (l : List α) (e : Str)
    (h : l.mapM f = .error e) : ∃ x ∈ l, f x = .error e := by
  induction l with
  | nil =>
    rw [List.mapM_nil] at h
    simp [pure, Except.pure] at h
  | cons a l ih =>
    rw [List.mapM_cons] at h
    rcases (except_bind_error _ _ _).1 h with h1 | ⟨b, hb, h1⟩
    · exact ⟨a, List.mem_cons_self a l, h1⟩
    · rcases (except_bind_error _ _ _).1 h1 with h2 | ⟨bs, hbs, h2⟩
      · rcases ih h2 with ⟨x, hx, hfx⟩
        exact ⟨x, List.mem_cons_of_mem a hx, hfx⟩
      · simp [pure, Except.pure] at h2

theorem mapM_ok_forall {α β : Type} (f : α → Except Str β) (l : List α) (ys : List β)
    (h : l.mapM f = .ok ys) : ∀ x ∈ l, ∃ y, f x = .ok y := by
  induction l generalizing ys with
  | nil => simp
  | cons a l ih =>
    rw [List.mapM_cons] at h
    rcases (except_bind_ok _ _ _).1 h with ⟨b, hb, h1⟩
    rcases (except_bind_ok _ _ _).1 h1 with ⟨bs, hbs, _⟩
    intro x hx
    rcases List.mem_cons.1 hx with rfl | hx
    · exact ⟨b, hb⟩
    · exact ih bs hbs x hx

theorem mem_enum_snd {α : Type} {p : Nat × α} {l : List α} (h : p ∈ l.enum) : p.2 ∈ l := by
  have hg := List.mem_enum_iff_getElem?.1 h
  rcases List.getElem?_eq_some.1 hg with ⟨hlt, hEq⟩
  exact hEq ▸ List.getElem_mem hlt

theorem sanitize_ok_of_safe {s : Str} (h : isSafeIdentifier s = true) :
    sanitizeIdentifier s = .ok s := by
  simp [sanitizeIdentifier, h]

theorem sanitize_ok_inv {s y : Str} (h : sanitizeIdentifier s = .ok y) :
    y = s ∧ isSafeIdentifier s = true := by
  by_cases hs : isSafeIdentifier s = true
  · simp [sanitizeIdentifier, hs] at h
    exact ⟨h.symm, hs⟩
  · simp [sanitizeIdentifier, hs] at h

theorem sanitize_error_inv {s e : Str} (h : sanitizeIdentifier s = .error e) :
    e = invalidIdentifierMsg s ∧ isSafeIdentifier s = false := by
  by_cases hs : isSafeIdentifier s = true
  · simp [sanitizeIdentifier, hs] at h
  · simp [sanitizeIdentifier, hs] at h
    exact ⟨h.symm, by simpa using hs⟩

theorem mem_ids_table (config : QueryConfig) :
    config.table ∈ configIdentifiers config :=
  List.mem_append_left _ (List.mem_append_left _ (List.mem_append_left _
    (List.mem_append_left _ (List.mem_append_left _ (by simp)))))

theorem mem_ids_column (config : QueryConfig) {c : Str} (h : c ∈ config.columns) :
    c ∈ configIdentifiers config :=
  List.mem_append_left _ (List.mem_append_left _ (List.mem_append_left _
    (List.mem_append_left _ (List.mem_append_right _ h))))

theorem mem_ids_joinCol (config : QueryConfig) {j : JoinConfig} {c : Str}
    (hj : j ∈ config.joins.getD []) (h : c ∈ j.columns) :
    c ∈ configIdentifiers config :=
  List.mem_append_left _ (List.mem_append_left _ (List.mem_append_left _
    (List.mem_append_right _ (List.mem_flatMap.2 ⟨j, hj, h⟩))))

theorem mem_ids_joinTable (config : QueryConfig) {j : JoinConfig}
    (hj : j ∈ config.joins.getD []) : j.table ∈ configIdentifiers config :=
  List.mem_append_left _ (List.mem_append_left _ (List.mem_append_right _
    (List.mem_flatMap.2 ⟨j, hj, by simp⟩)))

theorem mem_ids_joinParent (config : QueryConfig) {j : JoinConfig}
    (hj : j ∈ config.joins.getD []) : j.parentColumn ∈ configIdentifiers config :=
  List.mem_append_left _ (List.mem_append_left _ (List.mem_append_right _
    (List.mem_flatMap.2 ⟨j, hj, by simp⟩)))

theorem mem_ids_joinChild (config : QueryConfig) {j : JoinConfig}
    (hj : j ∈ config.joins.getD []) : j.childColumn ∈ configIdentifiers config :=
  List.mem_append_left _ (List.mem_append_left _ (List.mem_append_right _
    (List.mem_flatMap.2 ⟨j, hj, by simp⟩)))

theorem mem_ids_whereKey (config : QueryConfig) {fv : Str × Str}
    (h : fv ∈ config.«where») : fv.1 ∈ configIdentifiers config :=
  List.mem_append_left _ (List.mem_append_right _ (List.mem_map.2 ⟨fv, h, rfl⟩))

theorem mem_ids_orderField (config : QueryConfig) {ob : OrderBy}
    (h : config.orderBy = some ob) : ob.field ∈ configIdentifiers config :=
  List.mem_append_right _ (by simp [h])

theorem buildQuery_ok_of_safe (config : QueryConfig)
    (h : allIdentifiersSafe config = true) :
    buildQuery config = .ok ⟨expectedSql config, expectedParams config⟩ := by
  have hsafe : ∀ s ∈ configIdentifiers config, isSafeIdentifier s = true := by
    simpa [allIdentifiersSafe, List.all_eq_true] using h
  have htab : sanitizeIdentifier config.table = .ok config.table :=
    sanitize_ok_of_safe (hsafe _ (mem_ids_table config))
  have hmapPrefixed :
      (config.columns.mapM (fun c => do
        let sc ← sanitizeIdentifier c
        pure (config.table ++ '.' :: sc)) : Except Str (List Str))
      = .ok (config.columns.map (fun c => config.table ++ '.' :: c)) := by
    refine mapM_ok_of _ _ _ (fun c hc => ?_)
    rw [sanitize_ok_of_safe (hsafe _ (mem_ids_column config hc)), ok_bind]
    rfl
  have hmapPlain :
      (config.columns.mapM (fun c => sanitizeIdentifier c) : Except Str (List Str))
      = .ok config.columns := by
    have := mapM_ok_of (fun c => sanitizeIdentifier c) id config.columns
      (fun c hc => sanitize_ok_of_safe (hsafe _ (mem_ids_column config hc)))
    simpa using this
  have hmapJoinSel :
      ((config.joins.getD []).enum.mapM (fun p =>
        if ¬ p.2.columns.isEmpty then
          p.2.columns.mapM (fun col => do
            let sc ← sanitizeIdentifier col
            pure (aliasName p.1 ++ '.' :: sc ++ " AS ".toList ++ p.2.table ++ '_' :: sc))
        else
          pure [aliasName p.1 ++ ".*".toList]) : Except Str (List (List Str)))
      = .ok ((config.joins.getD []).enum.map joinProjection) := by
    refine mapM_ok_of _ _ _ (fun p hp => ?_)
    have hpj := mem_enum_snd hp
    by_cases hpc : p.2.columns.isEmpty
    · simp [hpc, joinProjection, pure, Except.pure]
    · rw [if_pos (by simpa using hpc)]
      rw [joinProjection, if_pos (by simpa using hpc)]
      refine mapM_ok_of _ _ _ (fun col hcol => ?_)
      rw [sanitize_ok_of_safe (hsafe _ (mem_ids_joinCol config hpj hcol)), ok_bind]
      rfl
  have hmapJoinCl :
      ((config.joins.getD []).enum.mapM (fun p => do
        let joinTable ← sanitizeIdentifier p.2.table
        let parentCol ← sanitizeIdentifier p.2.parentColumn
        let childCol ← sanitizeIdentifier p.2.childColumn
        pure (' ' :: joinTypeStr p.2.type ++ " JOIN ".toList ++ joinTable
          ++ " AS ".toList ++ aliasName p.1 ++ " ON ".toList ++ config.table
          ++ '.' :: parentCol ++ " = ".toList ++ aliasName p.1 ++ '.' :: childCol))
        : Except Str (List Str))
      = .ok ((config.joins.getD []).enum.map (joinClauseOf config.table)) := by
    refine mapM_ok_of _ _ _ (fun p hp => ?_)
    have hpj := mem_enum_snd hp
    rw [sanitize_ok_of_safe (hsafe _ (mem_ids_joinTable config hpj)), ok_bind,
      sanitize_ok_of_safe (hsafe _ (mem_ids_joinParent config hpj)), ok_bind,
      sanitize_ok_of_safe (hsafe _ (mem_ids_joinChild config hpj)), ok_bind]
    rfl
  have hmapConds :
      (config.«where».mapM (fun fv => do
        let sf ← sanitizeIdentifier fv.1
        pure ((if hasJoins config then config.table ++ '.' :: sf else sf) ++ " = ?".toList))
        : Except Str (List Str))
      = .ok (whereCondList config) := by
    refine mapM_ok_of _ _ _ (fun fv hfv => ?_)
    rw [sanitize_ok_of_safe (hsafe _ (mem_ids_whereKey config hfv)), ok_bind]
    rfl
  cases hord : config.orderBy with
  | none =>
    cases hlim : config.limit with
    | none =>
      simp only [buildQuery, htab, ok_bind, hmapPrefixed, hmapPlain, hmapJoinSel,
        hmapJoinCl, hmapConds, hord, hlim, expectedSql, expectedParams, baseSelectList,
        joinSelectList, joinClausesStr, whereStr, orderByStr, limitStr, limitParams]
      split <;> split <;> by_cases hwe : config.«where» = [] <;>
        simp [pure, Except.pure, ok_bind, Bind.bind, Except.bind, hwe]
    | some n =>
      simp only [buildQuery, htab, ok_bind, hmapPrefixed, hmapPlain, hmapJoinSel,
        hmapJoinCl, hmapConds, hord, hlim, expectedSql, expectedParams, baseSelectList,
        joinSelectList, joinClausesStr, whereStr, orderByStr, limitStr, limitParams]
      split <;> split <;> by_cases hwe : config.«where» = [] <;>
        simp [pure, Except.pure, ok_bind, Bind.bind, Except.bind, hwe]
  | some ob =>
    have hof : sanitizeIdentifier ob.field = .ok ob.field :=
      sanitize_ok_of_safe (hsafe _ (mem_ids_orderField config hord))
    cases hlim : config.limit with
    | none =>
      simp only [buildQuery, htab, ok_bind, hmapPrefixed, hmapPlain, hmapJoinSel,
        hmapJoinCl, hmapConds, hord, hlim, hof, expectedSql, expectedParams, baseSelectList,
        joinSelectList, joinClausesStr, whereStr, orderByStr, limitStr, limitParams]
      split <;> split <;> by_cases hwe : config.«where» = [] <;>
        simp [pure, Except.pure, ok_bind, Bind.bind, Except.bind, hwe]
    | some n =>
      simp only [buildQuery, htab, ok_bind, hmapPrefixed, hmapPlain, hmapJoinSel,
        hmapJoinCl, hmapConds, hord, hlim, hof, expectedSql, expectedParams, baseSelectList,
        joinSelectList, joinClausesStr, whereStr, orderByStr, limitStr, limitParams]
      split <;> split <;> by_cases hwe : config.«where» = [] <;>
        simp [pure, Except.pure, ok_bind, Bind.bind, Except.bind, hwe]

theorem mem_enum_of_mem {α : Type} {a : α} {l : List α} (h : a ∈ l) :
    ∃ i, (i, a) ∈ l.enum := by
  rcases List.mem_iff_getElem.1 h with ⟨i, hi, hEq⟩
  refine ⟨i, List.mem_enum_iff_getElem?.2 ?_⟩
  simpa [List.getElem?_eq_getElem hi] using hEq

theorem buildQuery_ok_imp_safe (config : QueryConfig) (r : BuiltQuery)
    (h : buildQuery config = .ok r) : allIdentifiersSafe config = true := by
  rw [allIdentifiersSafe, List.all_eq_true]
  simp only [buildQuery] at h
  rcases (except_bind_ok _ _ _).1 h with ⟨table, htab, h⟩
  obtain ⟨rfl, htabsafe⟩ := sanitize_ok_inv htab
  rcases (except_bind_ok _ _ _).1 h with ⟨baseCols, hbase, h⟩
  rcases (except_bind_ok _ _ _).1 h with ⟨joinColGroups, hjsel, h⟩
  rcases (except_bind_ok _ _ _).1 h with ⟨joinClauses, hjcl, h⟩
  rcases (except_bind_ok _ _ _).1 h with ⟨conditions, hconds, h⟩
  rcases (except_bind_ok _ _ _).1 h with ⟨sql3, hord, h⟩
  have hcolsafe : ∀ c ∈ config.columns, isSafeIdentifier c = true := by
    by_cases hce : config.columns.isEmpty = true
    · intro c hc
      rw [List.isEmpty_iff] at hce
      simp [hce] at hc
    · rw [if_pos hce] at hbase
      intro c hc
      by_cases hjb : hasJoins config = true
      · rw [if_pos hjb] at hbase
        rcases mapM_ok_forall _ _ _ hbase c hc with ⟨y, hy⟩
        rcases (except_bind_ok _ _ _).1 hy with ⟨sc, hsc, _⟩
        exact (sanitize_ok_inv hsc).2
      · rw [if_neg hjb] at hbase
        rcases mapM_ok_forall _ _ _ hbase c hc with ⟨y, hy⟩
        exact (sanitize_ok_inv hy).2
  have hjoinsafe : ∀ j ∈ config.joins.getD [],
      isSafeIdentifier j.table = true ∧ isSafeIdentifier j.parentColumn = true ∧
      isSafeIdentifier j.childColumn = true ∧
      ∀ c ∈ j.columns, isSafeIdentifier c = true := by
    intro j hj
    rcases mem_enum_of_mem hj with ⟨i, hij⟩
    rcases mapM_ok_forall _ _ _ hjcl (i, j) hij with ⟨y, hy⟩
    rcases (except_bind_ok _ _ _).1 hy with ⟨jt, hjt, hy⟩
    rcases (except_bind_ok _ _ _).1 hy with ⟨pc, hpc, hy⟩
    rcases (except_bind_ok _ _ _).1 hy with ⟨cc, hcc, _⟩
    refine ⟨(sanitize_ok_inv hjt).2, (sanitize_ok_inv hpc).2, (sanitize_ok_inv hcc).2, ?_⟩
    intro c hc
    rcases mapM_ok_forall _ _ _ hjsel (i, j) hij with ⟨ys, hys⟩
    have hne : ¬ (j.columns.isEmpty = true) := by
      intro hemp
      rw [List.isEmpty_iff] at hemp
      simp [hemp] at hc
    rw [if_pos hne] at hys
    rcases mapM_ok_forall _ _ _ hys c hc with ⟨z, hz⟩
    rcases (except_bind_ok _ _ _).1 hz with ⟨sc, hsc, _⟩
    exact (sanitize_ok_inv hsc).2
  have hwsafe : ∀ fv ∈ config.«where», isSafeIdentifier fv.1 = true := by
    intro fv hfv
    rcases mapM_ok_forall _ _ _ hconds fv hfv with ⟨y, hy⟩
    rcases (except_bind_ok _ _ _).1 hy with ⟨sf, hsf, _⟩
    exact (sanitize_ok_inv hsf).2
  have hosafe : ∀ ob, config.orderBy = some ob → isSafeIdentifier ob.field = true := by
    intro ob hob
    rw [hob] at hord
    rcases (except_bind_ok _ _ _).1 hord with ⟨f, hf, _⟩
    exact (sanitize_ok_inv hf).2
  intro s hs
  simp only [configIdentifiers, List.mem_append, List.mem_flatMap, List.mem_map,
    List.mem_singleton, List.mem_cons, List.not_mem_nil, or_false] at hs
  rcases hs with ((((hs | hs) | hs) | hs) | hs) | hs
  · exact hs ▸ htabsafe
  · exact hcolsafe s hs
  · rcases hs with ⟨j, hj, hc⟩
    exact (hjoinsafe j hj).2.2.2 s hc
  · rcases hs with ⟨j, hj, hc⟩
    rcases hc with hc | hc | hc <;> subst hc
    · exact (hjoinsafe j hj).1
    · exact (hjoinsafe j hj).2.1
    · exact (hjoinsafe j hj).2.2.1
  · rcases hs with ⟨fv, hfv, hEq⟩
    exact hEq ▸ hwsafe fv hfv
  · cases hob : config.orderBy with
    | none => rw [hob] at hs; simp at hs
    | some ob =>
      rw [hob] at hs
      simp only [List.mem_singleton] at hs
      exact hs ▸ hosafe ob hob

theorem buildQuery_error_mem (config : QueryConfig) (e : Str)
    (h : buildQuery config = .error e) :
    ∃ t, t ∈ configIdentifiers config ∧ isSafeIdentifier t = false ∧
      e = invalidIdentifierMsg t := by
  simp only [buildQuery] at h
  rcases (except_bind_error _ _ _).1 h with htab | ⟨table, htab, h⟩
  · obtain ⟨hEq, hsafe⟩ := sanitize_error_inv htab
    exact ⟨config.table, mem_ids_table config, hsafe, hEq⟩
  obtain ⟨rfl, _⟩ := sanitize_ok_inv htab
  rcases (except_bind_error _ _ _).1 h with hbase | ⟨baseCols, _, h⟩
  · by_cases hce : config.columns.isEmpty = true
    · rw [if_neg (by simp [hce])] at hbase
      simp [pure, Except.pure] at hbase
    · rw [if_pos hce] at hbase
      by_cases hjb : hasJoins config = true
      · rw [if_pos hjb] at hbase
        rcases mapM_error_mem _ _ _ hbase with ⟨c, hc, hfc⟩
        rcases (except_bind_error _ _ _).1 hfc with herr | ⟨sc, _, herr⟩
        · obtain ⟨hEq, hsafe⟩ := sanitize_error_inv herr
          exact ⟨c, mem_ids_column config hc, hsafe, hEq⟩
        · simp [pure, Except.pure] at herr
      · rw [if_neg hjb] at hbase
        rcases mapM_error_mem _ _ _ hbase with ⟨c, hc, hfc⟩
        obtain ⟨hEq, hsafe⟩ := sanitize_error_inv hfc
        exact ⟨c, mem_ids_column config hc, hsafe, hEq⟩
  rcases (except_bind_error _ _ _).1 h with hjsel | ⟨joinColGroups, _, h⟩
  · rcases mapM_error_mem _ _ _ hjsel with ⟨p, hp, hfp⟩
    have hpj := mem_enum_snd hp
    by_cases hpc : p.2.columns.isEmpty = true
    · rw [if_neg (by simp [hpc])] at hfp
      simp [pure, Except.pure] at hfp
    · rw [if_pos hpc] at hfp
      rcases mapM_error_mem _ _ _ hfp with ⟨c, hc, hfc⟩
      rcases (except_bind_error _ _ _).1 hfc with herr | ⟨sc, _, herr⟩
      · obtain ⟨hEq, hsafe⟩ := sanitize_error_inv herr
        exact ⟨c, mem_ids_joinCol config hpj hc, hsafe, hEq⟩
      · simp [pure, Except.pure] at herr
  rcases (except_bind_error _ _ _).1 h with hjcl | ⟨joinClauses, _, h⟩
  · rcases mapM_error_mem _ _ _ hjcl with ⟨p, hp, hfp⟩
    have hpj := mem_enum_snd hp
    rcases (except_bind_error _ _ _).1 hfp with herr | ⟨jt, _, hfp⟩
    · obtain ⟨hEq, hsafe⟩ := sanitize_error_inv herr
      exact ⟨p.2.table, mem_ids_joinTable config hpj, hsafe, hEq⟩
    rcases (except_bind_error _ _ _).1 hfp with herr | ⟨pc, _, hfp⟩
    · obtain ⟨hEq, hsafe⟩ := sanitize_error_inv herr
      exact ⟨p.2.parentColumn, mem_ids_joinParent config hpj, hsafe, hEq⟩
    rcases (except_bind_error _ _ _).1 hfp with herr | ⟨cc, _, hfp⟩
    · obtain ⟨hEq, hsafe⟩ := sanitize_error_inv herr
      exact ⟨p.2.childColumn, mem_ids_joinChild config hpj, hsafe, hEq⟩
    · simp [pure, Except.pure] at hfp
  rcases (except_bind_error _ _ _).1 h with hconds | ⟨conditions, _, h⟩
  · rcases mapM_error_mem _ _ _ hconds with ⟨fv, hfv, hffv⟩
    rcases (except_bind_error _ _ _).1 hffv with herr | ⟨sf, _, herr⟩
    · obtain ⟨hEq, hsafe⟩ := sanitize_error_inv herr
      exact ⟨fv.1, mem_ids_whereKey config hfv, hsafe, hEq⟩
    · simp [pure, Except.pure] at herr
  rcases (except_bind_error _ _ _).1 h with hordE | ⟨sql3, _, h⟩
  · cases hob : config.orderBy with
    | none =>
      rw [hob] at hordE
      simp [pure, Except.pure] at hordE
    | some ob =>
      rw [hob] at hordE
      rcases (except_bind_error _ _ _).1 hordE with herr | ⟨f, _, herr⟩
      · obtain ⟨hEq, hsafe⟩ := sanitize_error_inv herr
        exact ⟨ob.field, mem_ids_orderField config hob, hsafe, hEq⟩
      · simp [pure, Except.pure] at herr
  · cases hlim : config.limit with
    | none =>
      rw [hlim] at h
      simp [pure, Except.pure] at h
    | some n =>
      rw [hlim] at h
      simp [pure, Except.pure] at h

theorem identRunsAux_cons_true {c : Char} (h : identChar c = true) (cs acc : Str) :
    identRunsAux (c :: cs) acc = identRunsAux cs (c :: acc) := by
  simp [identRunsAux, h]

theorem identRunsAux_cons_false {c : Char} (h : identChar c = false) (cs acc : Str) :
    identRunsAux (c :: cs) acc =
      if acc.isEmpty then identRunsAux cs [] else acc.reverse :: identRunsAux cs [] := by
  simp [identRunsAux, h]

theorem identRunsAux_nil (acc : Str) :
    identRunsAux [] acc = if acc.isEmpty then [] else [acc.reverse] := rfl

theorem identRunsAux_append_right (a b acc : Str) (hb : headOpen b = true) :
    identRunsAux (a ++ b) acc = identRunsAux a acc ++ identRunsAux b [] := by
  induction a generalizing acc with
  | nil =>
    rw [List.nil_append, identRunsAux_nil]
    cases b with
    | nil =>
      rw [identRunsAux_nil]
      by_cases hacc : acc.isEmpty = true <;> simp [hacc, identRunsAux_nil]
    | cons d t =>
      have hd : identChar d = false := by
        simpa [headOpen] using hb
      rw [identRunsAux_cons_false hd, identRunsAux_cons_false hd]
      by_cases hacc : acc.isEmpty = true <;> simp [hacc, identRunsAux_nil]
  | cons c a ih =>
    rw [List.cons_append]
    by_cases hc : identChar c = true
    · rw [identRunsAux_cons_true hc, identRunsAux_cons_true hc]
      exact ih (c :: acc)
    · have hc2 : identChar c = false := by simpa using hc
      rw [identRunsAux_cons_false hc2, identRunsAux_cons_false hc2]
      by_cases hacc : acc.isEmpty = true
      · rw [if_pos hacc, if_pos hacc]
        exact ih []
      · rw [if_neg hacc, if_neg hacc, ih []]
        simp

theorem identRunsAux_append_left (a b acc : Str) (ha : lastOpen a = true) :
    identRunsAux (a ++ b) acc = identRunsAux a acc ++ identRunsAux b [] := by
  induction a generalizing acc with
  | nil => simp [lastOpen] at ha
  | cons c a ih =>
    cases a with
    | nil =>
      have hc : identChar c = false := by
        simpa [lastOpen] using ha
      rw [List.cons_append, List.nil_append, identRunsAux_cons_false hc,
        identRunsAux_cons_false hc, identRunsAux_nil]
      by_cases hacc : acc.isEmpty = true <;> simp [hacc]
    | cons d t =>
      have ha2 : lastOpen (d :: t) = true := by
        simpa [lastOpen, List.getLast?_cons_cons] using ha
      rw [List.cons_append]
      by_cases hc : identChar c = true
      · rw [identRunsAux_cons_true hc, identRunsAux_cons_true hc]
        exact ih _ ha2
      · have hc2 : identChar c = false := by simpa using hc
        rw [identRunsAux_cons_false hc2, identRunsAux_cons_false hc2]
        by_cases hacc : acc.isEmpty = true
        · rw [if_pos hacc, if_pos hacc]
          exact ih [] ha2
        · rw [if_neg hacc, if_neg hacc, ih [] ha2]
          simp

theorem identRunsAux_run (id s acc : Str) (h1 : id.all identChar = true)
    (h2 : id ≠ []) (h3 : headOpen s = true) :
    identRunsAux (id ++ s) acc = (acc.reverse ++ id) :: identRunsAux s [] := by
  induction id generalizing acc with
  | nil => exact absurd rfl h2
  | cons c cs ih =>
    rw [List.all_cons, Bool.and_eq_true] at h1
    cases cs with
    | nil =>
      rw [List.cons_append, List.nil_append, identRunsAux_cons_true h1.1]
      cases s with
      | nil => simp [identRunsAux_nil]
      | cons d t =>
        have hd : identChar d = false := by
          simpa [headOpen] using h3
        simp [identRunsAux_cons_false hd]
    | cons c2 cs2 =>
      rw [List.cons_append, identRunsAux_cons_true h1.1, ih (c :: acc) h1.2 (by simp)]
      simp

theorem identRuns_append_right (a b : Str) (hb : headOpen b = true) :
    identRuns (a ++ b) = identRuns a ++ identRuns b :=
  identRunsAux_append_right a b [] hb

theorem identRuns_append_left (a b : Str) (ha : lastOpen a = true) :
    identRuns (a ++ b) = identRuns a ++ identRuns b :=
  identRunsAux_append_left a b [] ha

theorem safe_all_identChar {id : Str} (h : isSafeIdentifier id = true) :
    id.all identChar = true ∧ id ≠ [] := by
  cases id with
  | nil => simp [isSafeIdentifier] at h
  | cons c cs =>
    simp only [isSafeIdentifier, Bool.and_eq_true] at h
    refine ⟨?_, by simp⟩
    simp only [List.all_cons, Bool.and_eq_true]
    refine ⟨?_, h.2⟩
    rcases Bool.or_eq_true_iff.1 h.1 with h1 | h1 <;> simp [identChar, h1]

theorem identRuns_ident_head (id s : Str) (hid : isSafeIdentifier id = true)
    (hs : headOpen s = true) :
    identRuns (id ++ s) = id :: identRuns s := by
  obtain ⟨h1, h2⟩ := safe_all_identChar hid
  simpa using identRunsAux_run id s [] h1 h2 hs

theorem allRunsSafe_append_right {a b : Str} (hb : headOpen b = true)
    (ha : allRunsSafe a = true) (hb2 : allRunsSafe b = true) :
    allRunsSafe (a ++ b) = true := by
  simp only [allRunsSafe, identRuns_append_right a b hb, List.all_append]
  simp only [allRunsSafe] at ha hb2
  simp [ha, hb2]

theorem allRunsSafe_append_left {a b : Str} (hla : lastOpen a = true)
    (ha : allRunsSafe a = true) (hb2 : allRunsSafe b = true) :
    allRunsSafe (a ++ b) = true := by
  simp only [allRunsSafe, identRuns_append_left a b hla, List.all_append]
  simp only [allRunsSafe] at ha hb2
  simp [ha, hb2]

theorem allRunsSafe_ident_head {id s : Str} (hid : isSafeIdentifier id = true)
    (hs : headOpen s = true) (hs2 : allRunsSafe s = true) :
    allRunsSafe (id ++ s) = true := by
  simp only [allRunsSafe, identRuns_ident_head id s hid hs, List.all_cons]
  simp only [allRunsSafe] at hs2
  simp [hid, hs2]

theorem allRunsSafe_ident {id : Str} (hid : isSafeIdentifier id = true) :
    allRunsSafe id = true := by
  have := allRunsSafe_ident_head hid (s := []) rfl (by rfl)
  simpa using this

theorem headOpen_append {a b : Str} (ha : headOpen a = true) (hb : headOpen b = true) :
    headOpen (a ++ b) = true := by
  cases a with
  | nil => simpa using hb
  | cons c t => simpa [headOpen] using ha

theorem digitCharOf_digit (d : Nat) : isDigitChar (digitCharOf d) = true := by
  unfold digitCharOf
  split <;> decide

theorem digitVal_digitCharOf (d : Nat) (h : d < 10) :
    digitVal (digitCharOf d) = d := by
  interval_cases d <;> decide

theorem natDigits_all_digit (n : Nat) : (natDigits n).all isDigitChar = true := by
  induction n using Nat.strong_induction_on with
  | _ n ih =>
    rw [natDigits_eq]
    by_cases h : n < 10
    · simp [h, digitCharOf_digit]
    · have hd : n / 10 < n := Nat.div_lt_self (by omega) (by omega)
      simp [h, List.all_append, ih (n / 10) hd, digitCharOf_digit]

/-- Decimal value of a digit string, the left inverse of `natDigits`. -/
def digitsValOf (l : Str) : Nat := l.foldl (fun a c => 10 * a + digitVal c) 0

theorem digitsValOf_append_digit (a : Str) (c : Char) :
    digitsValOf (a ++ [c]) = 10 * digitsValOf a + digitVal c := by
  simp [digitsValOf, List.foldl_append]

theorem digitsValOf_natDigits (n : Nat) : digitsValOf (natDigits n) = n := by
  induction n using Nat.strong_induction_on with
  | _ n ih =>
    rw [natDigits_eq]
    by_cases h : n < 10
    · simp [h, digitsValOf, digitVal_digitCharOf n h]
    · have hd : n / 10 < n := Nat.div_lt_self (by omega) (by omega)
      rw [if_neg h, digitsValOf_append_digit, ih (n / 10) hd,
        digitVal_digitCharOf (n % 10) (by omega)]
      omega

theorem natDigits_injective : Function.Injective natDigits := by
  intro m n h
  rw [← digitsValOf_natDigits m, ← digitsValOf_natDigits n, h]

theorem aliasName_injective : Function.Injective aliasName := by
  intro m n h
  exact natDigits_injective (by simpa [aliasName] using h)

theorem aliasName_safe (i : Nat) : isSafeIdentifier (aliasName i) = true := by
  have hall : (natDigits i).all identChar = true := by
    rw [List.all_eq_true]
    intro c hc
    have := (List.all_eq_true.1 (natDigits_all_digit i)) c hc
    simp [identChar, this]
  simp [aliasName, isSafeIdentifier, hall]
  decide

theorem aliases_nodup (n : Nat) : ((List.range n).map aliasName).Nodup :=
  (List.nodup_range n).map aliasName_injective

theorem safe_no_qmark {id : Str} (h : isSafeIdentifier id = true) :
    List.count '?' id = 0 := by
  rw [List.count_eq_zero]
  intro hmem
  have hall := (safe_all_identChar h).1
  have := (List.all_eq_true.1 hall) '?' hmem
  simp [identChar, isLetterChar, isDigitChar] at this

theorem count_joinSep (x : Char) (sep : Str) (l : List Str)
    (h0 : List.count x sep = 0) :
    List.count x (joinSep sep l) = (l.map (List.count x)).sum := by
  match l with
  | [] => simp [joinSep]
  | [a] => simp [joinSep]
  | a :: b :: rest =>
    rw [joinSep]
    simp only [List.count_append, List.map_cons, List.sum_cons, h0,
      count_joinSep x sep (b :: rest) h0]
    omega

theorem count_flatten (x : Char) (l : List Str) :
    List.count x l.flatten = (l.map (List.count x)).sum := by
  induction l with
  | nil => simp
  | cons a t ih => simp [List.count_append, ih]

/-- `allRunsSafe` is preserved by prefixing a non-identifier character. -/
theorem allRunsSafe_sep_cons {c : Char} {s : Str} (hc : identChar c = false)
    (hs : allRunsSafe s = true) : allRunsSafe (c :: s) = true := by
  simpa [allRunsSafe, identRuns, identRunsAux_cons_false hc] using hs

theorem headOpen_sep {c : Char} (s : Str) (hc : identChar c = false) :
    headOpen (c :: s) = true := by
  simp [headOpen, hc]

theorem headOpen_append_ne {a : Str} (b : Str) (ha : a ≠ []) :
    headOpen (a ++ b) = headOpen a := by
  cases a with
  | nil => exact absurd rfl ha
  | cons c t => simp [headOpen]

theorem safe_underscore_append {a b : Str} (ha : isSafeIdentifier a = true)
    (hb : b.all identChar = true) : isSafeIdentifier (a ++ '_' :: b) = true := by
  cases a with
  | nil => simp [isSafeIdentifier] at ha
  | cons c cs =>
    simp only [isSafeIdentifier, Bool.and_eq_true] at ha
    simp only [List.cons_append, isSafeIdentifier, List.all_append, List.all_cons,
      Bool.and_eq_true]
    exact ⟨ha.1, ha.2, by decide, hb⟩

theorem dirUpper_safe (d : Dir) : isSafeIdentifier (dirUpper d) = true := by
  cases d <;> decide

theorem joinTypeStr_safe (t : JoinType) : isSafeIdentifier (joinTypeStr t) = true := by
  cases t <;> decide

theorem headOpen_lit (lit rest : Str) (h1 : lit ≠ []) (h2 : headOpen lit = true) :
    headOpen (lit ++ rest) = true := by
  rw [headOpen_append_ne _ h1]
  exact h2

theorem lastOpen_ne_nil {s : Str} (h : lastOpen s = true) : s ≠ [] := by
  cases s with
  | nil => simp [lastOpen] at h
  | cons c t => simp

theorem allRunsSafe_joinSep (sep : Str) (l : List Str) (h1 : headOpen sep = true)
    (h2 : lastOpen sep = true) (h3 : allRunsSafe sep = true)
    (h : ∀ x ∈ l, allRunsSafe x = true) : allRunsSafe (joinSep sep l) = true := by
  match l with
  | [] => rfl
  | [a] => exact h a (by simp)
  | a :: b :: rest =>
    rw [joinSep, List.append_assoc]
    refine allRunsSafe_append_right ?_ (h a (by simp)) ?_
    · rw [headOpen_append_ne _ (lastOpen_ne_nil h2)]
      exact h1
    · exact allRunsSafe_append_left h2 h3
        (allRunsSafe_joinSep sep (b :: rest) h1 h2 h3
          (fun x hx => h x (List.mem_cons_of_mem a hx)))

theorem allRunsSafe_flatten (l : List Str)
    (h : ∀ x ∈ l, headOpen x = true ∧ allRunsSafe x = true) :
    headOpen l.flatten = true ∧ allRunsSafe l.flatten = true := by
  induction l with
  | nil => exact ⟨rfl, rfl⟩
  | cons a t ih =>
    have ha := h a (List.mem_cons_self a t)
    have ht := ih (fun x hx => h x (List.mem_cons_of_mem a hx))
    rw [List.flatten_cons]
    constructor
    · cases a with
      | nil => simpa using ht.1
      | cons c cs => rw [headOpen_append_ne _ (by simp)]; exact ha.1
    · exact allRunsSafe_append_right ht.1 ha.2 ht.2

theorem expectedSql_runs_safe (config : QueryConfig)
    (h : allIdentifiersSafe config = true) :
    allRunsSafe (expectedSql config) = true := by
  have hsafe : ∀ s ∈ configIdentifiers config, isSafeIdentifier s = true := by
    simpa [allIdentifiersSafe, List.all_eq_true] using h
  have htab := hsafe _ (mem_ids_table config)
  have hbase : ∀ x ∈ baseSelectList config, allRunsSafe x = true := by
    intro x hx
    by_cases hce : config.columns.isEmpty <;> by_cases hj : hasJoins config = true <;>
      simp [baseSelectList, hce, hj] at hx
    · subst hx
      exact allRunsSafe_ident_head htab (by decide) (by decide)
    · subst hx
      decide
    · rcases hx with ⟨c, hc, rfl⟩
      exact allRunsSafe_ident_head htab (headOpen_sep _ (by decide))
        (allRunsSafe_sep_cons (by decide)
          (allRunsSafe_ident (hsafe c (mem_ids_column config hc))))
    · exact allRunsSafe_ident (hsafe x (mem_ids_column config hx))
  have hjsel : ∀ x ∈ joinSelectList config, allRunsSafe x = true := by
    intro x hx
    rw [joinSelectList] at hx
    rcases List.mem_flatten.1 hx with ⟨g, hg, hxg⟩
    rcases List.mem_map.1 hg with ⟨p, hp, rfl⟩
    have hpj := mem_enum_snd hp
    rw [joinProjection] at hxg
    split at hxg
    · rcases List.mem_map.1 hxg with ⟨col, hcol, rfl⟩
      have hcs := hsafe col (mem_ids_joinCol config hpj hcol)
      have htb := hsafe _ (mem_ids_joinTable config hpj)
      simp only [List.append_assoc, List.cons_append]
      refine allRunsSafe_ident_head (aliasName_safe _) (headOpen_sep _ (by decide)) ?_
      refine allRunsSafe_sep_cons (by decide) ?_
      refine allRunsSafe_append_right (headOpen_lit _ _ (by decide) (by decide))
        (allRunsSafe_ident hcs) ?_
      refine allRunsSafe_append_left (by decide) (by decide) ?_
      exact allRunsSafe_ident
        (safe_underscore_append htb (safe_all_identChar hcs).1)
    · rcases List.mem_singleton.1 hxg with rfl
      exact allRunsSafe_ident_head (aliasName_safe _) (by decide) (by decide)
  have hclause : ∀ x ∈ (config.joins.getD []).enum.map (joinClauseOf config.table),
      headOpen x = true ∧ allRunsSafe x = true := by
    intro x hx
    rcases List.mem_map.1 hx with ⟨p, hp, rfl⟩
    have hpj := mem_enum_snd hp
    have htb := hsafe _ (mem_ids_joinTable config hpj)
    have hpc := hsafe _ (mem_ids_joinParent config hpj)
    have hcc := hsafe _ (mem_ids_joinChild config hpj)
    constructor
    · rw [joinClauseOf, List.cons_append]
      exact headOpen_sep _ (by decide)
    · rw [joinClauseOf]
      simp only [List.append_assoc, List.cons_append]
      refine allRunsSafe_sep_cons (by decide) ?_
      refine allRunsSafe_ident_head (joinTypeStr_safe _)
        (headOpen_lit _ _ (by decide) (by decide)) ?_
      refine allRunsSafe_append_left (by decide) (by decide) ?_
      refine allRunsSafe_ident_head htb (headOpen_lit _ _ (by decide) (by decide)) ?_
      refine allRunsSafe_append_left (by decide) (by decide) ?_
      refine allRunsSafe_ident_head (aliasName_safe _)
        (headOpen_lit _ _ (by decide) (by decide)) ?_
      refine allRunsSafe_append_left (by decide) (by decide) ?_
      refine allRunsSafe_ident_head htab (headOpen_sep _ (by decide)) ?_
      refine allRunsSafe_sep_cons (by decide) ?_
      refine allRunsSafe_ident_head hpc (headOpen_lit _ _ (by decide) (by decide)) ?_
      refine allRunsSafe_append_left (by decide) (by decide) ?_
      refine allRunsSafe_ident_head (aliasName_safe _) (headOpen_sep _ (by decide)) ?_
      exact allRunsSafe_sep_cons (by decide) (allRunsSafe_ident hcc)
  have hJC := allRunsSafe_flatten _ hclause
  have hconds : ∀ x ∈ whereCondList config, allRunsSafe x = true := by
    intro x hx
    rcases List.mem_map.1 hx with ⟨fv, hfv, rfl⟩
    have hk := hsafe _ (mem_ids_whereKey config hfv)
    by_cases hj : hasJoins config = true
    · rw [if_pos hj]
      simp only [List.append_assoc, List.cons_append]
      refine allRunsSafe_ident_head htab (headOpen_sep _ (by decide)) ?_
      refine allRunsSafe_sep_cons (by decide) ?_
      exact allRunsSafe_append_right (by decide) (allRunsSafe_ident hk) (by decide)
    · rw [if_neg hj]
      exact allRunsSafe_append_right (by decide) (allRunsSafe_ident hk) (by decide)
  have hW : headOpen (whereStr config) = true ∧ allRunsSafe (whereStr config) = true := by
    rw [whereStr]
    split
    · refine ⟨headOpen_lit _ _ (by decide) (by decide), ?_⟩
      exact allRunsSafe_append_left (by decide) (by decide)
        (allRunsSafe_joinSep _ _ (by decide) (by decide) (by decide) hconds)
    · exact ⟨rfl, rfl⟩
  have hO : headOpen (orderByStr config) = true ∧
      allRunsSafe (orderByStr config) = true := by
    cases hob : config.orderBy with
    | none => simp only [orderByStr, hob]; exact ⟨rfl, rfl⟩
    | some ob =>
      have hf := hsafe _ (mem_ids_orderField config hob)
      simp only [orderByStr, hob]
      simp only [List.append_assoc, List.cons_append]
      refine ⟨headOpen_lit _ _ (by decide) (by decide), ?_⟩
      refine allRunsSafe_append_left (by decide) (by decide) ?_
      by_cases hj : hasJoins config = true
      · rw [if_pos hj]
        simp only [List.append_assoc, List.cons_append]
        refine allRunsSafe_ident_head htab (headOpen_sep _ (by decide)) ?_
        refine allRunsSafe_sep_cons (by decide) ?_
        refine allRunsSafe_append_right (headOpen_sep _ (by decide))
          (allRunsSafe_ident hf) ?_
        exact allRunsSafe_sep_cons (by decide) (allRunsSafe_ident (dirUpper_safe _))
      · rw [if_neg hj]
        refine allRunsSafe_append_right (headOpen_sep _ (by decide))
          (allRunsSafe_ident hf) ?_
        exact allRunsSafe_sep_cons (by decide) (allRunsSafe_ident (dirUpper_safe _))
  have hL : headOpen (limitStr config) = true ∧ allRunsSafe (limitStr config) = true := by
    cases hlim : config.limit with
    | none => simp only [limitStr, hlim]; exact ⟨rfl, rfl⟩
    | some n => simp only [limitStr, hlim]; exact ⟨by decide, by decide⟩
  have hCS : allRunsSafe
      (joinSep ", ".toList (baseSelectList config ++ joinSelectList config)) = true := by
    refine allRunsSafe_joinSep _ _ (by decide) (by decide) (by decide) ?_
    intro x hx
    rcases List.mem_append.1 hx with hx | hx
    · exact hbase x hx
    · exact hjsel x hx
  rw [expectedSql, joinClausesStr]
  simp only [List.append_assoc]
  refine allRunsSafe_append_left (by decide) (by decide) ?_
  refine allRunsSafe_append_right (headOpen_lit _ _ (by decide) (by decide)) hCS ?_
  refine allRunsSafe_append_left (by decide) (by decide) ?_
  refine allRunsSafe_ident_head htab ?_ ?_
  · exact headOpen_append hJC.1 (headOpen_append hW.1 (headOpen_append hO.1 hL.1))
  · refine allRunsSafe_append_right
      (headOpen_append hW.1 (headOpen_append hO.1 hL.1)) hJC.2 ?_
    refine allRunsSafe_append_right (headOpen_append hO.1 hL.1) hW.2 ?_
    exact allRunsSafe_append_right hL.1 hO.2 hL.2

theorem count_q_cons_ne {c : Char} (s : Str) (hc : ¬ c = '?') :
    List.count '?' (c :: s) = List.count '?' s := by
  simp [List.count_cons, hc]

theorem expectedSql_count (config : QueryConfig)
    (h : allIdentifiersSafe config = true) :
    List.count '?' (expectedSql config)
      = config.«where».length + (limitParams config).length := by
  have hsafe : ∀ s ∈ configIdentifiers config, isSafeIdentifier s = true := by
    simpa [allIdentifiersSafe, List.all_eq_true] using h
  have htab := safe_no_qmark (hsafe _ (mem_ids_table config))
  have hbase : ∀ x ∈ baseSelectList config, List.count '?' x = 0 := by
    intro x hx
    by_cases hce : config.columns.isEmpty <;> by_cases hj : hasJoins config = true <;>
      simp [baseSelectList, hce, hj] at hx
    · subst hx
      simp [List.count_append, htab]
    · subst hx
      decide
    · rcases hx with ⟨c, hc, rfl⟩
      have := safe_no_qmark (hsafe c (mem_ids_column config hc))
      simp [List.count_append, List.count_cons, htab, this]
    · exact safe_no_qmark (hsafe x (mem_ids_column config hx))
  have hjsel : ∀ x ∈ joinSelectList config, List.count '?' x = 0 := by
    intro x hx
    rw [joinSelectList] at hx
    rcases List.mem_flatten.1 hx with ⟨g, hg, hxg⟩
    rcases List.mem_map.1 hg with ⟨p, hp, rfl⟩
    have hpj := mem_enum_snd hp
    rw [joinProjection] at hxg
    split at hxg
    · rcases List.mem_map.1 hxg with ⟨col, hcol, rfl⟩
      have hcq := safe_no_qmark (hsafe col (mem_ids_joinCol config hpj hcol))
      have htq := safe_no_qmark (hsafe _ (mem_ids_joinTable config hpj))
      have haq := safe_no_qmark (aliasName_safe p.1)
      simp [List.count_append, List.count_cons, hcq, htq, haq]
    · rcases List.mem_singleton.1 hxg with rfl
      have haq := safe_no_qmark (aliasName_safe p.1)
      simp [List.count_append, haq]
  have hCS : List.count '?'
      (joinSep ", ".toList (baseSelectList config ++ joinSelectList config)) = 0 := by
    rw [count_joinSep _ _ _ (by decide)]
    refine List.sum_eq_zero ?_
    intro n hn
    rcases List.mem_map.1 hn with ⟨x, hx, rfl⟩
    rcases List.mem_append.1 hx with hx | hx
    · exact hbase x hx
    · exact hjsel x hx
  have hJC : List.count '?' (joinClausesStr config) = 0 := by
    rw [joinClausesStr, count_flatten]
    refine List.sum_eq_zero ?_
    intro n hn
    rcases List.mem_map.1 hn with ⟨x, hx, rfl⟩
    rcases List.mem_map.1 hx with ⟨p, hp, rfl⟩
    have hpj := mem_enum_snd hp
    have htq := safe_no_qmark (hsafe _ (mem_ids_joinTable config hpj))
    have hpq := safe_no_qmark (hsafe _ (mem_ids_joinParent config hpj))
    have hcq := safe_no_qmark (hsafe _ (mem_ids_joinChild config hpj))
    have haq := safe_no_qmark (aliasName_safe p.1)
    have hkq : List.count '?' (joinTypeStr p.2.type) = 0 :=
      safe_no_qmark (joinTypeStr_safe _)
    simp [joinClauseOf, List.count_append, List.count_cons, htab, htq, hpq, hcq,
      haq, hkq]
  have hcond1 : ∀ x ∈ whereCondList config, List.count '?' x = 1 := by
    intro x hx
    rcases List.mem_map.1 hx with ⟨fv, hfv, rfl⟩
    have hk := safe_no_qmark (hsafe _ (mem_ids_whereKey config hfv))
    by_cases hj : hasJoins config = true <;>
      simp [hj, List.count_append, List.count_cons, htab, hk]
  have hW : List.count '?' (whereStr config) = config.«where».length := by
    rw [whereStr]
    split
    · rw [List.count_append, count_joinSep _ _ _ (by decide)]
      have hmap : (whereCondList config).map (List.count '?')
          = (whereCondList config).map (fun x => 1) :=
        List.map_congr_left hcond1
      rw [hmap]
      have hones : ∀ l : List Str, (l.map (fun x => (1 : Nat))).sum = l.length := by
        intro l
        induction l with
        | nil => simp
        | cons a t ih => simp [ih]; omega
      rw [hones]
      simp [whereCondList]
    · rename_i hne
      have : config.«where» = [] := by
        simpa [List.isEmpty_iff] using hne
      simp [this]
  have hO : List.count '?' (orderByStr config) = 0 := by
    cases hob : config.orderBy with
    | none => simp [orderByStr, hob]
    | some ob =>
      have hf := safe_no_qmark (hsafe _ (mem_ids_orderField config hob))
      have hd : List.count '?' (dirUpper ob.direction) = 0 :=
        safe_no_qmark (dirUpper_safe _)
      by_cases hj : hasJoins config = true <;>
        simp [orderByStr, hob, hj, List.count_append, List.count_cons, htab, hf, hd]
  have hL : List.count '?' (limitStr config) = (limitParams config).length := by
    cases hlim : config.limit with
    | none => simp [limitStr, limitParams, hlim]
    | some n =>
      simp [limitStr, limitParams, hlim]
  rw [expectedSql]
  simp only [List.count_append]
  rw [hCS, hJC, hW, hO, hL, htab]
  have hsel : List.count '?' "SELECT ".toList = 0 := by decide
  have hfrom : List.count '?' " FROM ".toList = 0 := by decide
  rw [hsel, hfrom]
  omega

theorem splitOnChar_ne_nil (sep : Char) (l : Str) : splitOnChar sep l ≠ [] := by
  cases l with
  | nil => simp [splitOnChar]
  | cons c cs =>
    rw [splitOnChar]
    split
    · simp
    · split <;> simp

theorem splitOnChar_no_sep (sep : Char) (l : Str) :
    ∀ p ∈ splitOnChar sep l, sep ∉ p := by
  induction l with
  | nil =>
    intro p hp
    simp [splitOnChar] at hp
    simp [hp]
  | cons c cs ih =>
    intro p hp
    rw [splitOnChar] at hp
    split at hp
    · rename_i heq
      exact absurd heq (splitOnChar_ne_nil sep cs)
    · rename_i h t heq
      split at hp
      · rcases List.mem_cons.1 hp with rfl | hp
        · simp
        · exact ih p (by rw [heq]; exact hp)
      · rcases List.mem_cons.1 hp with rfl | hp
        · rename_i hne
          intro hmem
          rcases List.mem_cons.1 hmem with hEq | hmem
          · exact hne hEq.symm
          · exact ih h (by rw [heq]; exact List.mem_cons_self h t) hmem
        · exact ih p (by rw [heq]; exact List.mem_cons_of_mem h hp)

theorem map_natCast_nonneg {x : Option Nat} {n : Int}
    (h : x.map (fun k => (k : Int)) = some n) : 0 ≤ n := by
  cases x with
  | none => simp at h
  | some m =>
    simp at h
    omega

theorem jsParseInt_nonneg {s : Str} {n : Int} (hms : '-' ∉ s)
    (h : jsParseInt s = some n) : 0 ≤ n := by
  have hsub : ∀ x ∈ s.dropWhile isJsSpace, x ∈ s := fun x hx =>
    (List.dropWhile_sublist isJsSpace).subset hx
  rw [jsParseInt] at h
  split at h
  · rename_i rest heq
    exact absurd (hsub '-' (by rw [heq]; exact List.mem_cons_self _ _)) hms
  · exact map_natCast_nonneg h
  · exact map_natCast_nonneg h

theorem parseStep_limit_field (st : LoopState) (part : Str) (hp : '-' ∉ part) :
    (parseStep st part).config.limit = st.config.limit ∨
      ∃ n, (parseStep st part).config.limit = some n ∧ 0 ≤ n := by
  rw [parseStep]
  split
  · exact Or.inl rfl
  split
  · exact Or.inl rfl
  split
  · exact Or.inl rfl
  split <;> try exact Or.inl rfl
  · split <;> exact Or.inl rfl
  · split
    · rename_i n hn
      exact Or.inr ⟨n, rfl, jsParseInt_nonneg hp hn⟩
    · exact Or.inl rfl
  · split
    · exact Or.inl rfl
    split <;> exact Or.inl rfl

theorem parseLoop_limit_nonneg (parts : List Str) (st : LoopState)
    (hparts : ∀ p ∈ parts, '-' ∉ p)
    (hst : st.config.limit = none ∨ ∃ n, st.config.limit = some n ∧ 0 ≤ n) :
    (parseLoop st parts).limit = none ∨
      ∃ n, (parseLoop st parts).limit = some n ∧ 0 ≤ n := by
  induction parts generalizing st with
  | nil => exact hst
  | cons p rest ih =>
    rw [parseLoop]
    refine ih (parseStep st p) (fun q hq => hparts q (List.mem_cons_of_mem p hq)) ?_
    rcases parseStep_limit_field st p (hparts p (List.mem_cons_self p rest)) with hsame | hpos
    · rw [hsame]
      exact hst
    · exact Or.inr hpos

theorem lookup_setWhereAux_self (w : List (Str × Str)) (k v : Str) :
    List.lookup k (setWhereAux w k v) = some v := by
  induction w with
  | nil => simp [setWhereAux, List.lookup]
  | cons kv rest ih =>
    obtain ⟨a, b⟩ := kv
    rw [setWhereAux]
    split
    · simp [List.lookup]
    · rename_i hne
      have h1 : (k == a) = false := by
        simp only [beq_eq_false_iff_ne, ne_eq]
        intro hEq
        exact hne hEq.symm
      simp [List.lookup, h1, ih]

theorem lookup_setWhereAux_other (w : List (Str × Str)) (k v k' : Str) (h : k' ≠ k) :
    List.lookup k' (setWhereAux w k v) = List.lookup k' w := by
  have h1 : (k' == k) = false := by simp [h]
  induction w with
  | nil => simp [setWhereAux, List.lookup, h1]
  | cons kv rest ih =>
    obtain ⟨a, b⟩ := kv
    rw [setWhereAux]
    split
    · rename_i hEq
      subst hEq
      simp [List.lookup, h1]
    · cases hbeq : k' == a <;> simp [List.lookup, hbeq, ih]

theorem setWhere_proto (w : List (Str × Str)) (v : Str) :
    setWhere w "__proto__".toList v = w := by
  simp [setWhere]

theorem lookup_setWhere_self (w : List (Str × Str)) (k v : Str)
    (h : k ≠ "__proto__".toList) :
    List.lookup k (setWhere w k v) = some v := by
  rw [setWhere, if_neg h]
  exact lookup_setWhereAux_self w k v

theorem lookup_setWhere_other (w : List (Str × Str)) (k v k' : Str) (h : k' ≠ k) :
    List.lookup k' (setWhere w k v) = List.lookup k' w := by
  rw [setWhere]
  split
  · rfl
  · exact lookup_setWhereAux_other w k v k' h

theorem buildQuery_ok_shape (config : QueryConfig) (r : BuiltQuery)
    (h : buildQuery config = .ok r) :
    r = ⟨expectedSql config, expectedParams config⟩ := by
  have hs := buildQuery_ok_imp_safe config r h
  have h2 := buildQuery_ok_of_safe config hs
  rw [h] at h2
  exact Except.ok.inj h2

/-- C1: a string with a character outside `[A-Za-z0-9_]`, or not starting
with a letter or underscore, placed in any identifier position (base table,
projected column, WHERE key, ORDER BY field, join table, join parent/child
column, join projected column) makes `buildQuery` fail with an
`Invalid identifier` error naming that exact string when it is the only
offending identifier, and in general naming some offending identifier of
the descriptor; no query text is returned on failure, and every `sql`
string a successful build returns has only maximal identifier-character
runs that match `[A-Za-z_][A-Za-z0-9_]*`. -/
theorem buildQuery_injection_safety (config : QueryConfig) :
    (∀ r, buildQuery config = .ok r →
      allIdentifiersSafe config = true ∧ allRunsSafe r.sql = true)
    ∧ (∀ e, buildQuery config = .error e →
      ∃ t, t ∈ configIdentifiers config ∧ isSafeIdentifier t = false ∧
        e = invalidIdentifierMsg t)
    ∧ (∀ s, s ∈ configIdentifiers config → isSafeIdentifier s = false →
      (∀ t, t ∈ configIdentifiers config → isSafeIdentifier t = false → t = s) →
      buildQuery config = .error (invalidIdentifierMsg s)) := by
  refine ⟨?_, buildQuery_error_mem config, ?_⟩
  · intro r hr
    have hs := buildQuery_ok_imp_safe config r hr
    have hr2 := buildQuery_ok_shape config r hr
    subst hr2
    exact ⟨hs, expectedSql_runs_safe config hs⟩
  · intro s hmem hbad huniq
    cases hb : buildQuery config with
    | ok r =>
      have hs := buildQuery_ok_imp_safe config r hb
      rw [allIdentifiersSafe, List.all_eq_true] at hs
      exact absurd (hs s hmem) (by simp [hbad])
    | error e =>
      rcases buildQuery_error_mem config e hb with ⟨t, htm, htb, rfl⟩
      rw [huniq t htm htb]

/-- Witness for C1 at the spec's own scenario: the table name
`users; DROP TABLE users` is rejected with the error naming it. -/
theorem buildQuery_injection_safety_witness :
    buildQuery ⟨"users; DROP TABLE users".toList, [], [], none, none, none⟩
      = .error (invalidIdentifierMsg "users; DROP TABLE users".toList) :=
  (buildQuery_injection_safety
    ⟨"users; DROP TABLE users".toList, [], [], none, none, none⟩).2.2
    "users; DROP TABLE users".toList (by decide) (by decide) (by decide)

/-- C2: on a successful build with N ≥ 1 joins, joins get positional
aliases `j0 … j(N-1)` in array order; the i-th join clause is
`` ` {KIND} JOIN {table} AS j{i} ON {base}.{parentColumn} = j{i}.{childColumn}` ``
with the kind uppercased (`joinTypeStr`); each requested join column is
projected `j{i}.{column} AS {table}_{column}` and an empty per-join column
list projects `j{i}.*`; the aliases are pairwise distinct, and each join's
ON clause holds its own alias `j{i}` in both alias slots. -/
theorem buildQuery_join_aliasing (config : QueryConfig) (js : List JoinConfig)
    (r : BuiltQuery) (hjs : config.joins = some js) (_hne : js ≠ [])
    (hr : buildQuery config = .ok r) :
    r.sql = "SELECT ".toList
        ++ joinSep ", ".toList (baseSelectList config
          ++ (js.enum.map (fun p =>
              if ¬ p.2.columns.isEmpty then
                p.2.columns.map (fun c =>
                  aliasName p.1 ++ '.' :: c ++ " AS ".toList ++ p.2.table ++ '_' :: c)
              else [aliasName p.1 ++ ".*".toList])).flatten)
        ++ " FROM ".toList ++ config.table
        ++ (js.enum.map (fun p =>
            ' ' :: joinTypeStr p.2.type ++ " JOIN ".toList ++ p.2.table
              ++ " AS ".toList ++ aliasName p.1 ++ " ON ".toList ++ config.table
              ++ '.' :: p.2.parentColumn ++ " = ".toList ++ aliasName p.1
              ++ '.' :: p.2.childColumn)).flatten
        ++ whereStr config ++ orderByStr config ++ limitStr config
    ∧ ((List.range js.length).map aliasName).Nodup := by
  refine ⟨?_, aliases_nodup js.length⟩
  have hshape := buildQuery_ok_shape config r hr
  subst hshape
  simp only [expectedSql, joinSelectList, joinClausesStr, hjs, Option.getD_some]
  rfl

/-- Witness for C2 at the spec's join scenario (one LEFT join). -/
theorem buildQuery_join_aliasing_witness :
    ((List.range 1).map aliasName).Nodup ∧
    buildQuery ⟨"users".toList, ["name".toList], [], none, none,
        some [⟨"posts".toList, "id".toList, "author_id".toList, ["title".toList], .LEFT⟩]⟩
      = .ok ⟨("SELECT users.name, j0.title AS posts_title FROM users "
          ++ "LEFT JOIN posts AS j0 ON users.id = j0.author_id").toList, []⟩ :=
  ⟨(buildQuery_join_aliasing
      ⟨"users".toList, ["name".toList], [], none, none,
        some [⟨"posts".toList, "id".toList, "author_id".toList, ["title".toList], .LEFT⟩]⟩
      [⟨"posts".toList, "id".toList, "author_id".toList, ["title".toList], .LEFT⟩]
      ⟨("SELECT users.name, j0.title AS posts_title FROM users "
          ++ "LEFT JOIN posts AS j0 ON users.id = j0.author_id").toList, []⟩
      rfl (by decide) (by decide)).2, by decide⟩

/-- C3: on every successful build, the number of `?` placeholders in the
returned sql equals the length of the returned params, and the params are
exactly one bound value per WHERE condition in the mapping's insertion
order followed by the limit value when present. -/
theorem buildQuery_placeholder_params (config : QueryConfig) (r : BuiltQuery)
    (h : buildQuery config = .ok r) :
    r.params = config.«where».map (fun fv => Param.str fv.2)
        ++ (match config.limit with | some n => [Param.num n] | none => [])
    ∧ List.count '?' r.sql = r.params.length := by
  have hs := buildQuery_ok_imp_safe config r h
  have hsh := buildQuery_ok_shape config r h
  subst hsh
  refine ⟨rfl, ?_⟩
  have hlen : (expectedParams config).length
      = config.«where».length + (limitParams config).length := by
    simp [expectedParams]
  rw [hlen]
  exact expectedSql_count config hs

/-- Witness for C3: one WHERE condition and a limit give two placeholders
and the params `["1", 7]` in that order. -/
theorem buildQuery_placeholder_params_witness :
    buildQuery ⟨"users".toList, ["name".toList], [("id".toList, "1".toList)],
        some 7, none, none⟩
      = .ok ⟨"SELECT name FROM users WHERE id = ? LIMIT ?".toList,
          [.str "1".toList, .num 7]⟩
    ∧ List.count '?' "SELECT name FROM users WHERE id = ? LIMIT ?".toList = 2 := by
  have h := buildQuery_placeholder_params
    ⟨"users".toList, ["name".toList], [("id".toList, "1".toList)], some 7, none, none⟩
    ⟨"SELECT name FROM users WHERE id = ? LIMIT ?".toList,
      [.str "1".toList, .num 7]⟩ (by decide)
  exact ⟨by decide, h.2⟩

/-- C4: `parseClassName` is a total function (it returns an `Option`,
never raising), and it returns `none` exactly when the input does not
start with the prefix `db-` or when the text after the prefix, split on
`-`, has an empty first (table) segment; otherwise it returns a
descriptor. -/
theorem parseClassName_none_iff (s : Str) :
    parseClassName s = none ↔
      ("db-".toList).isPrefixOf s = false ∨
        (splitOnChar '-' (s.drop 3)).head? = some [] := by
  rw [parseClassName]
  by_cases hp : ("db-".toList).isPrefixOf s
  · rw [if_pos hp]
    cases hsp : splitOnChar '-' (s.drop 3) with
    | nil => exact absurd hsp (splitOnChar_ne_nil _ _)
    | cons t rest =>
      constructor
      · intro h
        by_cases ht : t.isEmpty
        · exact Or.inr (by simp [List.isEmpty_iff.1 ht])
        · exfalso
          have h2 : (if t.isEmpty then none
              else some (parseLoop
                ⟨.column, [], { table := t, columns := [], «where» := [] }⟩ rest))
              = (none : Option QueryConfig) := h
          rw [if_neg ht] at h2
          exact absurd h2 (by simp)
      · intro h
        rcases h with h | h
        · rw [hp] at h
          cases h
        · have ht : t = [] := by simpa using h
          subst ht
          rfl
  · rw [if_neg hp]
    constructor
    · intro _
      exact Or.inl (Bool.eq_false_iff.2 hp)
    · intro _
      rfl

/-- C5 counterexample: `parseClassName` itself does not enforce the
safe-identifier grammar — `db-a!` parses to a descriptor whose table is
`a!`, which fails the grammar. -/
theorem parseClassName_unsafe_table_counterexample :
    (parseClassName "db-a!".toList).map (fun c => isSafeIdentifier c.table)
      = some false := by decide

/-- C5 (amended): every descriptor returned by `parseClassName` has a
non-negative `limit` when one is present, and its `orderBy.direction` is
`asc` or `desc`; the safe-identifier grammar on `table`, `columns`,
`where` keys and `orderBy.field` is *not* established by the parser — it
is checked only later, by `buildQuery`. -/
theorem parseClassName_limit_direction_invariants (s : Str) (c : QueryConfig)
    (h : parseClassName s = some c) :
    (∀ n, c.limit = some n → 0 ≤ n)
    ∧ (∀ ob, c.orderBy = some ob →
        ob.direction = Dir.asc ∨ ob.direction = Dir.desc) := by
  constructor
  · intro n hn
    rw [parseClassName] at h
    split at h
    · split at h
      · exact absurd h (by simp)
      · rename_i t rest heq
        split at h
        · exact absurd h (by simp)
        · have hc : parseLoop ⟨.column, [],
              { table := t, columns := [], «where» := [] }⟩ rest = c :=
            Option.some.inj h
          have hmem : ∀ p ∈ rest, '-' ∉ p := fun p hp =>
            splitOnChar_no_sep '-' (s.drop 3) p
              (by rw [heq]; exact List.mem_cons_of_mem t hp)
          have hinv := parseLoop_limit_nonneg rest
            ⟨.column, [], { table := t, columns := [], «where» := [] }⟩
            hmem (Or.inl rfl)
          rw [hc] at hinv
          rcases hinv with hnone | ⟨m, hm, hm0⟩
          · rw [hnone] at hn
            exact absurd hn (by simp)
          · rw [hm] at hn
            rw [← Option.some.inj hn]
            exact hm0
    · exact absurd h (by simp)
  · intro ob hob
    cases ob.direction with
    | asc => exact Or.inl rfl
    | desc => exact Or.inr rfl

/-- Witness for the amended C5 at `db-t-limit-5`. -/
theorem parseClassName_limit_direction_invariants_witness :
    (0 : Int) ≤ 5 ∧ parseClassName "db-t-limit-5".toList
      = some ⟨"t".toList, [], [], some 5, none, none⟩ := by
  have h := parseClassName_limit_direction_invariants "db-t-limit-5".toList
    ⟨"t".toList, [], [], some 5, none, none⟩ (by decide)
  exact ⟨h.1 5 rfl, by decide⟩

/-- C6: on every successful build, the base select list is `{table}.*`
when joins are present and no explicit columns are requested, bare `*`
without joins; explicit columns are prefixed with the base table exactly
when at least one join is present. -/
theorem buildQuery_projection (config : QueryConfig) (r : BuiltQuery)
    (h : buildQuery config = .ok r) :
    ∃ tail, r.sql = "SELECT ".toList
      ++ joinSep ", ".toList
        ((if config.columns.isEmpty then
            [if hasJoins config then config.table ++ ".*".toList else "*".toList]
          else if hasJoins config then
            config.columns.map (fun c => config.table ++ '.' :: c)
          else config.columns)
          ++ joinSelectList config)
      ++ " FROM ".toList ++ config.table ++ tail := by
  have hsh := buildQuery_ok_shape config r h
  subst hsh
  refine ⟨joinClausesStr config ++ whereStr config ++ orderByStr config
    ++ limitStr config, ?_⟩
  rw [expectedSql]
  by_cases hce : config.columns.isEmpty <;> by_cases hj : hasJoins config = true <;>
    simp [baseSelectList, hce, hj, List.append_assoc]

/-- Witness for C6 at the join scenario: the single explicit column `name`
is projected as `users.name`. -/
theorem buildQuery_projection_witness :
    ∃ tail, ("SELECT users.name, j0.title AS posts_title FROM users "
        ++ "LEFT JOIN posts AS j0 ON users.id = j0.author_id").toList
      = "SELECT ".toList
        ++ joinSep ", ".toList
          ((if ([("name".toList)] : List Str).isEmpty then
              [if hasJoins ⟨"users".toList, ["name".toList], [], none, none,
                  some [⟨"posts".toList, "id".toList, "author_id".toList,
                    ["title".toList], .LEFT⟩]⟩ then
                "users".toList ++ ".*".toList else "*".toList]
            else if hasJoins ⟨"users".toList, ["name".toList], [], none, none,
                some [⟨"posts".toList, "id".toList, "author_id".toList,
                  ["title".toList], .LEFT⟩]⟩ then
              (["name".toList] : List Str).map (fun c => "users".toList ++ '.' :: c)
            else ["name".toList])
            ++ joinSelectList ⟨"users".toList, ["name".toList], [], none, none,
              some [⟨"posts".toList, "id".toList, "author_id".toList,
                ["title".toList], .LEFT⟩]⟩)
        ++ " FROM ".toList ++ "users".toList ++ tail :=
  buildQuery_projection
    ⟨"users".toList, ["name".toList], [], none, none,
      some [⟨"posts".toList, "id".toList, "author_id".toList, ["title".toList], .LEFT⟩]⟩
    ⟨("SELECT users.name, j0.title AS posts_title FROM users "
        ++ "LEFT JOIN posts AS j0 ON users.id = j0.author_id").toList, []⟩
    (by decide)

/-- C7: whenever the token loop meets a reserved token `where`, `limit`
or `orderby`, it moves to state `where_field`, `limit` or `orderby_field`
respectively, whatever the current state, changing nothing else — in
particular a reserved token met in state `where_value` leaves the `where`
mapping untouched, discarding the pending field rather than binding the
keyword as its value. -/
theorem parseStep_reserved (st : LoopState) :
    parseStep st "where".toList = { st with state := .where_field }
    ∧ parseStep st "limit".toList = { st with state := .limit }
    ∧ parseStep st "orderby".toList = { st with state := .orderby_field } := by
  refine ⟨?_, ?_, ?_⟩ <;> simp [parseStep]

/-- C8 counterexample: the claim's unconditional binding fails at the
pending field `__proto__` — the program's `config.where['__proto__'] = v`
finds the inherited `Object.prototype.__proto__` setter, which ignores a
string value and creates no own property, so `db-t-where-__proto__-x`
parses to an empty `where` mapping instead of the claimed binding of `x`
to `__proto__`. -/
theorem parseStep_where_value_counterexample :
    (parseStep ⟨.where_value, "__proto__".toList,
        ⟨"t".toList, [], [], none, none, none⟩⟩ "x".toList).config.«where» = []
    ∧ (parseClassName "db-t-where-__proto__-x".toList).map QueryConfig.«where»
        = some [] := by decide

/-- C8 (amended): in state `where_value` a (non-keyword) token is bound to
the pending field, overwriting any earlier binding of that field while
leaving other keys unchanged — except when the pending field is
`__proto__`, where the JS assignment hits the inherited
`Object.prototype.__proto__` setter and is a silent no-op — and the state
returns to `where_field` so conditions chain; concretely
`db-t-where-a-1-b-2` parses to the two conditions `{a: 1, b: 2}` and
`db-t-where-a-1-where-a-2` to the single condition `{a: 2}`. -/
theorem parseStep_where_value (st : LoopState) (tok : Str)
    (h1 : st.state = .where_value)
    (h2 : tok ≠ "where".toList) (h3 : tok ≠ "limit".toList)
    (h4 : tok ≠ "orderby".toList) :
    parseStep st tok = { st with
      state := .where_field
      config := { st.config with
        «where» := setWhere st.config.«where» st.currentWhereField tok } }
    ∧ (st.currentWhereField ≠ "__proto__".toList →
        List.lookup st.currentWhereField
          (setWhere st.config.«where» st.currentWhereField tok) = some tok)
    ∧ (st.currentWhereField = "__proto__".toList →
        setWhere st.config.«where» st.currentWhereField tok = st.config.«where»)
    ∧ (∀ k, k ≠ st.currentWhereField →
        List.lookup k (setWhere st.config.«where» st.currentWhereField tok)
          = List.lookup k st.config.«where»)
    ∧ (parseClassName "db-t-where-a-1-b-2".toList).map QueryConfig.«where»
        = some [("a".toList, "1".toList), ("b".toList, "2".toList)]
    ∧ (parseClassName "db-t-where-a-1-where-a-2".toList).map QueryConfig.«where»
        = some [("a".toList, "2".toList)] := by
  refine ⟨?_, fun hk => lookup_setWhere_self _ _ _ hk,
    fun hk => by rw [hk]; exact setWhere_proto _ _,
    fun k hk => lookup_setWhere_other _ _ _ _ hk, by decide, by decide⟩
  rw [parseStep, if_neg h2, if_neg h3, if_neg h4, h1]

/-- Witness for the amended C8: binding `1` to pending field `a`. -/
theorem parseStep_where_value_witness :
    parseStep ⟨.where_value, "a".toList, ⟨"t".toList, [], [], none, none, none⟩⟩
        "1".toList
      = ⟨.where_field, "a".toList,
          ⟨"t".toList, [], [("a".toList, "1".toList)], none, none, none⟩⟩ :=
  (parseStep_where_value
    ⟨.where_value, "a".toList, ⟨"t".toList, [], [], none, none, none⟩⟩
    "1".toList rfl (by decide) (by decide) (by decide)).1

/-- C9: when the token met in state `limit` (necessarily a non-keyword,
since keywords are intercepted first, cf. C7) does not parse as a base-10
integer, the step changes nothing but the state, which falls back to
`column`: no limit is set and no error is raised; concretely
`db-t-limit-x-y` parses fine, with no limit and `y` consumed as a column. -/
theorem parseStep_limit_nonnumeric (st : LoopState) (tok : Str)
    (h1 : st.state = .limit) (hn : jsParseInt tok = none)
    (h2 : tok ≠ "where".toList) (h3 : tok ≠ "limit".toList)
    (h4 : tok ≠ "orderby".toList) :
    parseStep st tok = { st with state := .column }
    ∧ parseClassName "db-t-limit-x-y".toList
        = some ⟨"t".toList, ["y".toList], [], none, none, none⟩ := by
  refine ⟨?_, by decide⟩
  rw [parseStep, if_neg h2, if_neg h3, if_neg h4, h1, hn]

/-- Witness for C9: the non-numeric token `x` in state `limit`. -/
theorem parseStep_limit_nonnumeric_witness :
    parseStep ⟨.limit, [], ⟨"t".toList, [], [], none, none, none⟩⟩ "x".toList
      = ⟨.column, [], ⟨"t".toList, [], [], none, none, none⟩⟩ :=
  (parseStep_limit_nonnumeric
    ⟨.limit, [], ⟨"t".toList, [], [], none, none, none⟩⟩ "x".toList
    rfl (by decide) (by decide) (by decide) (by decide)).1

/-- C10: on every descriptor whose `joins` field is absent or an empty
list, the aliased builder and the alias-free duplicate found in the source
return identical results (same sql text, same params, same errors). -/
theorem buildQuery_noJoins_equiv (config : QueryConfig)
    (h : config.joins = none ∨ config.joins = some []) :
    buildQueryNoAlias config = buildQuery config := by
  rcases h with h | h <;>
    simp only [buildQuery, buildQueryNoAlias, h, Option.getD_none, Option.getD_some,
      List.enum_nil, List.mapM_nil, pure_bind, List.flatten_nil, List.append_nil]

/-- Witness for C10 on a join-free descriptor exercising columns, WHERE,
ORDER BY and LIMIT. -/
theorem buildQuery_noJoins_equiv_witness :
    buildQueryNoAlias ⟨"users".toList, ["name".toList],
        [("id".toList, "1".toList)], some 3, some ⟨"age".toList, .asc⟩, none⟩
      = buildQuery ⟨"users".toList, ["name".toList],
        [("id".toList, "1".toList)], some 3, some ⟨"age".toList, .asc⟩, none⟩ :=
  buildQuery_noJoins_equiv _ (Or.inl rfl)

example : natDigits 10 = ['1', '0'] := by decide
example : splitOnChar '-' "a--b".toList = ["a".toList, [], "b".toList] := by decide
example : jsParseInt "10abc".toList = some 10 := by decide
example : jsParseInt "x".toList = none := by decide
example : isSafeIdentifier "users".toList = true := by decide
example : isSafeIdentifier "users; DROP TABLE users".toList = false := by decide
example : parseClassName "db-users".toList =
    some { table := "users".toList, columns := [], «where» := [] } := by decide
example : parseClassName "db-users-name-where-id-1".toList =
    some { table := "users".toList, columns := ["name".toList],
           «where» := [("id".toList, "1".toList)] } := by decide
example : parseClassName "db-posts-title-limit-10".toList =
    some { table := "posts".toList, columns := ["title".toList],
           «where» := [], limit := some 10 } := by decide
example : parseClassName "db-products-orderby-price-desc".toList =
    some { table := "products".toList, columns := [], «where» := [],
           orderBy := some ⟨"price".toList, .desc⟩ } := by decide
example : parseClassName "db-".toList = none := by decide
example : parseClassName "users".toList = none := by decide
example : buildQuery ⟨"users".toList, [], [], none, none, none⟩ =
    .ok ⟨"SELECT * FROM users".toList, []⟩ := by decide
example : buildQuery ⟨"users".toList, ["name".toList], [("id".toList, "1".toList)],
      none, none, none⟩ =
    .ok ⟨"SELECT name FROM users WHERE id = ?".toList, [.str "1".toList]⟩ := by decide
example : buildQuery ⟨"posts".toList, ["title".toList], [], some 10, none, none⟩ =
    .ok ⟨"SELECT title FROM posts LIMIT ?".toList, [.num 10]⟩ := by decide
example : buildQuery ⟨"products".toList, [], [], none, some ⟨"price".toList, .desc⟩, none⟩ =
    .ok ⟨"SELECT * FROM products ORDER BY price DESC".toList, []⟩ := by decide
example : buildQuery ⟨"users".toList, ["name".toList], [], none, none,
      some [⟨"posts".toList, "id".toList, "author_id".toList, ["title".toList], .LEFT⟩]⟩ =
    .ok ⟨("SELECT users.name, j0.title AS posts_title FROM users " ++
      "LEFT JOIN posts AS j0 ON users.id = j0.author_id").toList, []⟩ := by decide
example : buildQuery ⟨"users; DROP TABLE users".toList, [], [], none, none, none⟩ =
    .error (invalidIdentifierMsg "users; DROP TABLE users".toList) := by decide
